import Mathlib

/-!
Shallow embedding of the "Underwater Odyssey" multiplayer server and client
(source: the server script with fish/chunk handling, and the client script's
reconciliation code), together with proofs about the spatial-streaming and
simulation behaviour.

Positions and velocities are modelled over ℚ; JavaScript `Map`s are modelled
as association lists with JS `Map` semantics (set replaces in place, new keys
append; delete removes the entry), and the `Set` of loaded chunk keys as a
list of chunk coordinate pairs with guarded insertion.  Randomness
(`Math.random()` draws) is passed in explicitly as rational parameters or
indexed streams of rationals.
-/

namespace UWO

/-- 3-component vector of rationals, modelling the `{x, y, z}` objects. -/
structure Vec3 where
  x : ℚ
  y : ℚ
  z : ℚ
deriving DecidableEq

/-- Key state per player: `{ArrowUp, ArrowDown, ArrowLeft, ArrowRight}`. -/
structure KeyState where
  arrowUp : Bool
  arrowDown : Bool
  arrowLeft : Bool
  arrowRight : Bool
deriving DecidableEq

/-- A fish entity as stored in `fishEntities`:
`{id, chunkX, chunkZ, position, velocity, lastDirectionChange}`. -/
structure Fish where
  id : ℕ
  chunkX : ℤ
  chunkZ : ℤ
  position : Vec3
  velocity : Vec3
  lastDirectionChange : ℤ
deriving DecidableEq

/-- `Map.get`: first entry with the given key. -/
def mget (k : ℕ) : List (ℕ × α) → Option α
  | [] => none
  | kv :: rest => if kv.1 = k then some kv.2 else mget k rest

/-- `Map.set`: replace in place if the key is present, else append. -/
def mset (k : ℕ) (v : α) : List (ℕ × α) → List (ℕ × α)
  | [] => [(k, v)]
  | kv :: rest => if kv.1 = k then (k, v) :: rest else kv :: mset k v rest

/-- `Map.delete`: remove the entry with the given key, if any. -/
def mdel (k : ℕ) : List (ℕ × α) → List (ℕ × α)
  | [] => []
  | kv :: rest => if kv.1 = k then rest else kv :: mdel k rest

@[simp] theorem mget_nil (k : ℕ) : mget k ([] : List (ℕ × α)) = none := rfl

theorem mget_cons (k : ℕ) (kv : ℕ × α) (rest : List (ℕ × α)) :
    mget k (kv :: rest) = if kv.1 = k then some kv.2 else mget k rest := rfl

theorem mset_cons (k : ℕ) (v : α) (kv : ℕ × α) (rest : List (ℕ × α)) :
    mset k v (kv :: rest) = if kv.1 = k then (k, v) :: rest else kv :: mset k v rest := rfl

@[simp] theorem mget_mset_self (k : ℕ) (v : α) (l : List (ℕ × α)) :
    mget k (mset k v l) = some v := by
  induction l with
  | nil => simp [mget, mset]
  | cons kv rest ih =>
      by_cases h : kv.1 = k
      · simp [mget, mset, h]
      · simp [mget, mset, h, ih]

@[simp] theorem mget_mset_ne (k k' : ℕ) (v : α) (l : List (ℕ × α)) (h : k' ≠ k) :
    mget k (mset k' v l) = mget k l := by
  induction l with
  | nil => simp [mget, mset, h]
  | cons kv rest ih =>
      by_cases hk : kv.1 = k'
      · subst hk
        have hne : ¬ kv.1 = k := h
        simp [mget, mset, hne]
      · by_cases hk2 : kv.1 = k
        · have hne : ¬ k = k' := fun hh => h hh.symm
          simp [mget, mset, hk, hk2, hne]
        · simp [mget, mset, hk, hk2, ih]

/-- `const CHUNK_SIZE = 16`. -/
def CHUNK_SIZE : ℚ := 16

/-- `const MOVE_SPEED = 10`. -/
def MOVE_SPEED : ℚ := 10

/-- `Math.floor(coord / CHUNK_SIZE)`: the chunk index of one world coordinate. -/
def chunkCoord (q : ℚ) : ℤ := ⌊q / CHUNK_SIZE⌋

/-- The full server state: the module-level mutable collections of the server
script (`nextClientId`, `nextFishId`, the four player maps, `fishEntities`,
`loadedChunks`). -/
structure ServerState where
  nextClientId : ℕ
  nextFishId : ℕ
  playerPositions : List (ℕ × Vec3)
  playerVelocities : List (ℕ × Vec3)
  playerChunks : List (ℕ × ℤ × ℤ)
  playerKeys : List (ℕ × KeyState)
  fishEntities : List (ℕ × Fish)
  loadedChunks : List (ℤ × ℤ)
deriving DecidableEq

/-- The server's state at process start: every collection empty, both id
counters at 0. -/
def initState : ServerState :=
  { nextClientId := 0, nextFishId := 0, playerPositions := [],
    playerVelocities := [], playerChunks := [], playerKeys := [],
    fishEntities := [], loadedChunks := [] }

/-- Messages the server sends out (the `ws.send` / broadcast payloads that the
claims are about). -/
inductive OutMsg where
  | welcome (id : ℕ)
  | fishInit (fish : List (ℕ × Fish))
  | fishSpawn (fish : Fish)
  | chunkUpdate (chunkX chunkZ : ℤ)
deriving DecidableEq

/-- One fish built inside `spawnFishForChunk`'s loop body: random position
within the chunk (x,z in the chunk square, y in [-3,-1]), random velocity
(x,z in [-2,2], y in [-1/2,1/2]).  `r` supplies the six `Math.random()`
draws, each expected in [0,1). -/
def spawnOneFish (fishId : ℕ) (cx cz : ℤ) (now : ℤ) (r : ℕ → ℚ) (base : ℕ) : Fish :=
  { id := fishId
    chunkX := cx
    chunkZ := cz
    position := { x := (cx : ℚ) * CHUNK_SIZE + r base * CHUNK_SIZE
                  y := -3 + r (base + 1) * 2
                  z := (cz : ℚ) * CHUNK_SIZE + r (base + 2) * CHUNK_SIZE }
    velocity := { x := (r (base + 3) * 2 - 1) * 2
                  y := (r (base + 4) * 2 - 1) * (1 / 2)
                  z := (r (base + 5) * 2 - 1) * 2 }
    lastDirectionChange := now }

/-- `spawnFishForChunk(chunkX, chunkZ)`: the loop runs `fishPerChunk = 1`
time, so exactly one fish is created, stored in `fishEntities`, and a
`fishSpawn` message is broadcast.  The six `Math.random()` draws of fish
number `n` are `r (6n) … (6n+5)`. -/
def spawnFishForChunk (s : ServerState) (cx cz : ℤ) (now : ℤ) (r : ℕ → ℚ) :
    ServerState × List OutMsg :=
  let fish := spawnOneFish s.nextFishId cx cz now r (6 * s.nextFishId)
  ({ s with nextFishId := s.nextFishId + 1,
            fishEntities := mset fish.id fish s.fishEntities },
   [OutMsg.fishSpawn fish])

/-- The 25 offsets `(dx, dz)` for `dx, dz ∈ [-2, 2]`, `dx` in the outer loop. -/
def chunkDeltas : List (ℤ × ℤ) :=
  (List.range 5).flatMap fun i =>
    (List.range 5).map fun j => ((i : ℤ) - 2, (j : ℤ) - 2)

/-- One iteration of the chunk-load loop: if the chunk is not already in
`loadedChunks`, add it and spawn its fish.  The accumulator carries the
state and the outgoing messages so far. -/
def loadStep (now : ℤ) (r : ℕ → ℚ) (acc : ServerState × List OutMsg)
    (c : ℤ × ℤ) : ServerState × List OutMsg :=
  if c ∈ acc.1.loadedChunks then acc
  else
    let s1 := { acc.1 with loadedChunks := acc.1.loadedChunks ++ [c] }
    let res := spawnFishForChunk s1 c.1 c.2 now r
    (res.1, acc.2 ++ res.2)

/-- The double loop `for dx in -2..2, for dz in -2..2` around a center chunk,
loading each not-yet-loaded chunk and spawning its fish (run both on
connection and on a chunk change in the movement handler). -/
def loadChunksAround (s : ServerState) (ccx ccz : ℤ) (now : ℤ) (r : ℕ → ℚ) :
    ServerState × List OutMsg :=
  (chunkDeltas.map fun d => (ccx + d.1, ccz + d.2)).foldl (loadStep now r) (s, [])

/-- The registration part of `wss.on('connection')`: assign the next client
id and initialise the four player map entries (origin position, zero
velocity, chunk (0,0), all keys up). -/
def connectRegister (s : ServerState) : ServerState :=
  { s with
    nextClientId := s.nextClientId + 1
    playerPositions := mset s.nextClientId ⟨0, 0, 0⟩ s.playerPositions
    playerVelocities := mset s.nextClientId ⟨0, 0, 0⟩ s.playerVelocities
    playerChunks := mset s.nextClientId (0, 0) s.playerChunks
    playerKeys := mset s.nextClientId ⟨false, false, false, false⟩ s.playerKeys }

/-- `wss.on('connection')`: register the client, load the 5×5 starting area
around chunk (0,0) (spawning fish for chunks not yet loaded), then send
`welcome` and — if any fish exist — `fishInit`. -/
def handleConnection (s : ServerState) (now : ℤ) (r : ℕ → ℚ) :
    ServerState × List OutMsg :=
  let res := loadChunksAround (connectRegister s) 0 0 now r
  (res.1, res.2 ++ [OutMsg.welcome s.nextClientId] ++
    (if res.1.fishEntities.isEmpty then [] else [OutMsg.fishInit res.1.fishEntities]))

/-- A successfully parsed client frame: `keyPress`, `movement`, or any frame
whose `type` matches neither handler (`other`).  A frame that is not valid
JSON is modelled as `none` at the use site. -/
inductive ClientMsg where
  | keyPress (key : String) (pressed : Bool)
  | movement (position : Vec3) (velocity : Option Vec3)
  | other

/-- `keyState[parsedMessage.key] = parsedMessage.pressed` guarded by
`parsedMessage.key in keyState`. -/
def setKey (ks : KeyState) (key : String) (pressed : Bool) : KeyState :=
  if key = "ArrowUp" then { ks with arrowUp := pressed }
  else if key = "ArrowDown" then { ks with arrowDown := pressed }
  else if key = "ArrowLeft" then { ks with arrowLeft := pressed }
  else if key = "ArrowRight" then { ks with arrowRight := pressed }
  else ks

/-- `ws.on('message')`: the whole handler body runs inside `try/catch`.
Invalid JSON (`none`) throws at `JSON.parse` and is caught with no state
change and no reply; an unknown `type` matches no branch; `keyPress`
updates the key state if the client still has one; `movement` stores the
reported position (and velocity, if present), recomputes the chunk, and on
a chunk change updates `playerChunks`, runs the chunk-load loop, and sends
`chunkUpdate`.  If the client's `playerChunks` entry is gone, the access
`currentChunk.x` throws and is caught — after the position/velocity writes
but before any chunk write or send. -/
def handleMessage (s : ServerState) (cid : ℕ) (msg : Option ClientMsg)
    (now : ℤ) (r : ℕ → ℚ) : ServerState × List OutMsg :=
  match msg with
  | none => (s, [])
  | some (ClientMsg.keyPress key pressed) =>
      match mget cid s.playerKeys with
      | none => (s, [])
      | some ks =>
          ({ s with playerKeys := mset cid (setKey ks key pressed) s.playerKeys }, [])
  | some (ClientMsg.movement pos vel) =>
      let s1 := { s with playerPositions := mset cid pos s.playerPositions }
      let s2 := match vel with
        | some v => { s1 with playerVelocities := mset cid v s1.playerVelocities }
        | none => s1
      let cx := chunkCoord pos.x
      let cz := chunkCoord pos.z
      match mget cid s2.playerChunks with
      | none => (s2, [])
      | some cur =>
          if cx ≠ cur.1 ∨ cz ≠ cur.2 then
            let s3 := { s2 with playerChunks := mset cid (cx, cz) s2.playerChunks }
            let res := loadChunksAround s3 cx cz now r
            (res.1, res.2 ++ [OutMsg.chunkUpdate cx cz])
          else (s2, [])
  | some ClientMsg.other => (s, [])

/-- `ws.on('close')`: delete the client's four player map entries.  Fish and
loaded chunks are not touched. -/
def handleClose (s : ServerState) (cid : ℕ) : ServerState :=
  { s with playerPositions := mdel cid s.playerPositions,
           playerVelocities := mdel cid s.playerVelocities,
           playerChunks := mdel cid s.playerChunks,
           playerKeys := mdel cid s.playerKeys }

/-- One entry of the `updatePlayerPositions` loop body (server): skip if the
client's position is gone (`if (!position) continue`); otherwise derive the
velocity from the key state (`ArrowUp`/`ArrowDown` write `velocity.z`, the
later branch winning; `ArrowLeft`/`ArrowRight` write `velocity.x`), damp by
0.9, and advance the position by velocity × 0.1.  `velocity.y` is kept from
the stored velocity (or 0 when absent) and `position.y` is untouched. -/
def integrateEntry (st : ServerState) (ck : ℕ × KeyState) : ServerState :=
  match mget ck.1 st.playerPositions with
  | none => st
  | some pos =>
      let vel := (mget ck.1 st.playerVelocities).getD ⟨0, 0, 0⟩
      let ks := ck.2
      let vz0 : ℚ := if ks.arrowUp then -MOVE_SPEED else 0
      let vz1 : ℚ := if ks.arrowDown then MOVE_SPEED else vz0
      let vx0 : ℚ := if ks.arrowLeft then -MOVE_SPEED else 0
      let vx1 : ℚ := if ks.arrowRight then MOVE_SPEED else vx0
      let vx := vx1 * (9 / 10)
      let vz := vz1 * (9 / 10)
      let pos1 : Vec3 := ⟨pos.x + vx * (1 / 10), pos.y, pos.z + vz * (1 / 10)⟩
      let vel1 : Vec3 := ⟨vx, vel.y, vz⟩
      { st with playerPositions := mset ck.1 pos1 st.playerPositions,
                playerVelocities := mset ck.1 vel1 st.playerVelocities }

/-- Server `updatePlayerPositions()`: iterate over `playerKeys.entries()`,
integrating each client that still has a position. -/
def updatePlayerPositions (s : ServerState) : ServerState :=
  s.playerKeys.foldl integrateEntry s

/-- The body of the server `updateFishPositions` loop for one fish: possibly
pick a new random velocity (deterministically when more than 3000 ms have
passed since `lastDirectionChange`, or randomly with probability 0.01 —
`rand` is that draw, `nv` the freshly drawn velocity), advance the position
by velocity × 0.02, then clamp x and z to the home chunk's inner bounds
(margin 2) and y to [-4.5, -1], inverting the corresponding velocity
component on contact. -/
def updateFishEntity (now : ℤ) (rand : ℚ) (nv : Vec3) (f : Fish) : Fish :=
  let f1 := if now - f.lastDirectionChange > 3000 ∨ rand < 1 / 100 then
      { f with velocity := nv, lastDirectionChange := now }
    else f
  let px := f1.position.x + f1.velocity.x * (1 / 50)
  let py := f1.position.y + f1.velocity.y * (1 / 50)
  let pz := f1.position.z + f1.velocity.z * (1 / 50)
  let minX : ℚ := (f1.chunkX : ℚ) * CHUNK_SIZE + 2
  let maxX : ℚ := ((f1.chunkX : ℚ) + 1) * CHUNK_SIZE - 2
  let minZ : ℚ := (f1.chunkZ : ℚ) * CHUNK_SIZE + 2
  let maxZ : ℚ := ((f1.chunkZ : ℚ) + 1) * CHUNK_SIZE - 2
  let minY : ℚ := -9 / 2
  let maxY : ℚ := -1
  let rx := if px < minX ∨ maxX < px then (max minX (min maxX px), -f1.velocity.x)
    else (px, f1.velocity.x)
  let rz := if pz < minZ ∨ maxZ < pz then (max minZ (min maxZ pz), -f1.velocity.z)
    else (pz, f1.velocity.z)
  let ry := if py < minY ∨ maxY < py then (max minY (min maxY py), -f1.velocity.y)
    else (py, f1.velocity.y)
  { f1 with position := ⟨rx.1, ry.1, rz.1⟩, velocity := ⟨rx.2, ry.2, rz.2⟩ }

/-- Server `updateFishPositions()`: run the AI step on every stored fish.
`rand` and `nv` supply the per-fish random draws, indexed by fish id. -/
def updateFishPositions (s : ServerState) (now : ℤ) (rand : ℕ → ℚ)
    (nv : ℕ → Vec3) : ServerState :=
  { s with fishEntities :=
      s.fishEntities.map fun p => (p.1, updateFishEntity now (rand p.1) (nv p.1) p.2) }

/-- One fish entry of the per-tick `gameState.fish` object:
`{id, position, velocity, chunkX, chunkZ}`. -/
structure FishSnap where
  id : ℕ
  position : Vec3
  velocity : Vec3
  chunkX : ℤ
  chunkZ : ℤ
deriving DecidableEq

/-- The `gameState` payload built each tick: players from `playerPositions`,
fish from `fishEntities`. -/
structure Snapshot where
  players : List (ℕ × Vec3)
  fish : List (ℕ × FishSnap)
deriving DecidableEq

/-- One run of the `setInterval` game-loop callback: integrate players from
key state, run fish AI, then rebuild `gameState` from the stores for
broadcast. -/
def gameTick (s : ServerState) (now : ℤ) (rand : ℕ → ℚ) (nv : ℕ → Vec3) :
    ServerState × Snapshot :=
  let s1 := updatePlayerPositions s
  let s2 := updateFishPositions s1 now rand nv
  (s2, { players := s2.playerPositions,
         fish := s2.fishEntities.map fun p =>
           (p.1, { id := p.2.id, position := p.2.position, velocity := p.2.velocity,
                   chunkX := p.2.chunkX, chunkZ := p.2.chunkZ }) })

/-- The externally triggered server events: a new connection, a message frame
from a client (with its parse result), a disconnect, and a tick of the game
loop. -/
inductive Event where
  | connect (now : ℤ) (r : ℕ → ℚ)
  | message (cid : ℕ) (msg : Option ClientMsg) (now : ℤ) (r : ℕ → ℚ)
  | close (cid : ℕ)
  | tick (now : ℤ) (rand : ℕ → ℚ) (nv : ℕ → Vec3)

/-- The state transition of each event. -/
def applyEvent (s : ServerState) : Event → ServerState
  | Event.connect now r => (handleConnection s now r).1
  | Event.message cid msg now r => (handleMessage s cid msg now r).1
  | Event.close cid => handleClose s cid
  | Event.tick now rand nv => (gameTick s now rand nv).1

/-- Run a sequence of events. -/
def applyEvents (s : ServerState) (es : List Event) : ServerState :=
  es.foldl applyEvent s

/-- The messages an event causes the server to send. -/
def eventOut (s : ServerState) : Event → List OutMsg
  | Event.connect now r => (handleConnection s now r).2
  | Event.message cid msg now r => (handleMessage s cid msg now r).2
  | Event.close _ => []
  | Event.tick _ _ _ => []

/-- Whether a fish's home chunk is `c`. -/
def fishHomeHere (c : ℤ × ℤ) (f : Fish) : Bool :=
  f.chunkX = c.1 ∧ f.chunkZ = c.2

/-- Number of stored fish whose home chunk is `c`. -/
def fishCount (c : ℤ × ℤ) (s : ServerState) : ℕ :=
  (s.fishEntities.filter fun p => fishHomeHere c p.2).length

/-- Reachability invariant of the id counter: every stored fish id is below
`nextFishId` (fish ids are handed out by the monotone counter). -/
def fishIdsBounded (s : ServerState) : Prop :=
  ∀ p ∈ s.fishEntities, p.1 < s.nextFishId

/-- The remote-player branch of the client's `updatePlayerPositions(players)`
(run on every `gameState` receipt, for each `pid ≠ clientId`):
`playerMesh.position.set(position.x, position.y, position.z)` — the
displayed mesh position is set directly to the snapshot position,
regardless of where the mesh currently is. -/
def remotePlayerMeshUpdate (meshPos serverPos : Vec3) : Vec3 :=
  ⟨serverPos.x, serverPos.y, serverPos.z⟩

/-- Client-side per-fish state: the rendered mesh position, the
`data.position` / `data.velocity` fields, the lazily initialised
`smoothVelocity`, the `data.serverPosition` target, and the home chunk. -/
structure ClientFish where
  meshPos : Vec3
  dataPos : Vec3
  dataVel : Vec3
  smoothVel : Option Vec3
  serverPos : Option Vec3
  chunkX : ℤ
  chunkZ : ℤ
deriving DecidableEq

/-- The client's `updateFishPositions(fishData)` body for one already-known
fish in a loaded chunk: store the snapshot position as
`data.serverPosition`, teleport mesh and `data.position` to it only if the
mesh is more than 5 units away (here phrased on the squared distance, which
is equivalent), and take over the snapshot velocity as `data.velocity`. -/
def clientFishSnapshot (cf : ClientFish) (sp svel : Vec3) : ClientFish :=
  let cf1 := { cf with serverPos := some sp }
  let d2 := (cf.meshPos.x - sp.x) ^ 2 + (cf.meshPos.y - sp.y) ^ 2 +
    (cf.meshPos.z - sp.z) ^ 2
  let cf2 := if 25 < d2 then { cf1 with meshPos := sp, dataPos := sp } else cf1
  { cf2 with dataVel := svel }

/-- The client's `updateLocalFishPositions(deltaTime)` body for one fish:
initialise `smoothVelocity` from `data.velocity` when missing; lerp the
mesh toward `data.serverPosition` by factor `0.05 * deltaTime`; lerp
`smoothVelocity` toward `data.velocity` by factor `deltaTime * 1.5`; drift
the mesh by `smoothVelocity * deltaTime * 0.2`; copy the mesh position into
`data.position`; then resolve chunk/vertical boundary contact (reset the
position 0.1 inside the bound, point `smoothVelocity` inward scaled by 0.8
and `data.velocity` inward); finally, with probability 0.0001 (`rand` is the
draw) replace `data.velocity` by a fresh random target velocity built from
the draws `r1, r2, r3`. -/
def clientFishFrame (dt : ℚ) (rand r1 r2 r3 : ℚ) (cf : ClientFish) : ClientFish :=
  let sv := cf.smoothVel.getD cf.dataVel
  let plf := (1 / 20) * dt
  let m1 : Vec3 := match cf.serverPos with
    | some sp => ⟨cf.meshPos.x + (sp.x - cf.meshPos.x) * plf,
                  cf.meshPos.y + (sp.y - cf.meshPos.y) * plf,
                  cf.meshPos.z + (sp.z - cf.meshPos.z) * plf⟩
    | none => cf.meshPos
  let vlf := dt * (3 / 2)
  let sv1 : Vec3 := ⟨sv.x + (cf.dataVel.x - sv.x) * vlf,
                     sv.y + (cf.dataVel.y - sv.y) * vlf,
                     sv.z + (cf.dataVel.z - sv.z) * vlf⟩
  let m2 : Vec3 := ⟨m1.x + sv1.x * dt * (1 / 5),
                    m1.y + sv1.y * dt * (1 / 5),
                    m1.z + sv1.z * dt * (1 / 5)⟩
  let minX : ℚ := (cf.chunkX : ℚ) * CHUNK_SIZE + 2
  let maxX : ℚ := ((cf.chunkX : ℚ) + 1) * CHUNK_SIZE - 2
  let minZ : ℚ := (cf.chunkZ : ℚ) * CHUNK_SIZE + 2
  let maxZ : ℚ := ((cf.chunkZ : ℚ) + 1) * CHUNK_SIZE - 2
  let minY : ℚ := -9 / 2
  let maxY : ℚ := -1
  let bX := if m2.x < minX then (minX + 1 / 10, |sv1.x| * (4 / 5), |cf.dataVel.x|)
    else if maxX < m2.x then (maxX - 1 / 10, -|sv1.x| * (4 / 5), -|cf.dataVel.x|)
    else (m2.x, sv1.x, cf.dataVel.x)
  let bZ := if m2.z < minZ then (minZ + 1 / 10, |sv1.z| * (4 / 5), |cf.dataVel.z|)
    else if maxZ < m2.z then (maxZ - 1 / 10, -|sv1.z| * (4 / 5), -|cf.dataVel.z|)
    else (m2.z, sv1.z, cf.dataVel.z)
  let bY := if m2.y < minY then (minY + 1 / 10, |sv1.y| * (4 / 5), |cf.dataVel.y|)
    else if maxY < m2.y then (maxY - 1 / 10, -|sv1.y| * (4 / 5), -|cf.dataVel.y|)
    else (m2.y, sv1.y, cf.dataVel.y)
  let dv1 : Vec3 := ⟨bX.2.2, bY.2.2, bZ.2.2⟩
  let dv2 : Vec3 := if rand < 1 / 10000 then
      ⟨(r1 * 2 - 1) * (3 / 2), (r2 * 2 - 1) * (3 / 10), (r3 * 2 - 1) * (3 / 2)⟩
    else dv1
  { cf with meshPos := ⟨bX.1, bY.1, bZ.1⟩
            dataPos := m2
            dataVel := dv2
            smoothVel := some ⟨bX.2.1, bY.2.1, bZ.2.1⟩ }

/-! ### Association-list lemmas -/

theorem mget_mem {k : ℕ} {v : α} {l : List (ℕ × α)} (h : mget k l = some v) :
    (k, v) ∈ l := by
  induction l with
  | nil => simp [mget] at h
  | cons kv rest ih =>
      by_cases hk : kv.1 = k
      · rw [mget_cons, if_pos hk] at h
        have hv : kv.2 = v := Option.some.inj h
        cases kv
        simp only at hk hv
        subst hk
        subst hv
        exact List.mem_cons_self _ _
      · rw [mget_cons, if_neg hk] at h
        exact List.mem_cons_of_mem _ (ih h)

theorem mget_append_some {k : ℕ} {v : α} {l l' : List (ℕ × α)}
    (h : mget k l = some v) : mget k (l ++ l') = some v := by
  induction l with
  | nil => simp [mget] at h
  | cons kv rest ih =>
      by_cases hk : kv.1 = k
      · rw [mget_cons, if_pos hk] at h
        simp [mget_cons, hk, h]
      · rw [mget_cons, if_neg hk] at h
        simp [mget_cons, hk, ih h]

theorem mset_eq_append {k : ℕ} (v : α) {l : List (ℕ × α)}
    (h : mget k l = none) : mset k v l = l ++ [(k, v)] := by
  induction l with
  | nil => rfl
  | cons kv rest ih =>
      by_cases hk : kv.1 = k
      · rw [mget_cons, if_pos hk] at h
        exact absurd h (by simp)
      · rw [mget_cons, if_neg hk] at h
        simp [mset, hk, ih h]

theorem mget_mset_isSome {k k' : ℕ} (v : α) {l : List (ℕ × α)}
    (h : (mget k l).isSome) : (mget k (mset k' v l)).isSome := by
  by_cases hk : k' = k
  · subst hk
    simp
  · rwa [mget_mset_ne k k' v l hk]

theorem mget_map_keyed (l : List (ℕ × α)) (g : ℕ → α → β) (k : ℕ) :
    mget k (l.map fun p => (p.1, g p.1 p.2)) = (mget k l).map (g k) := by
  induction l with
  | nil => rfl
  | cons kv rest ih =>
      by_cases hk : kv.1 = k
      · subst hk
        simp [mget_cons, ih]
      · simp [mget_cons, hk, ih]

theorem filter_length_map_keyed (l : List (ℕ × α)) (g : ℕ → α → α)
    (pred : α → Bool) (hg : ∀ k a, pred (g k a) = pred a) :
    ((l.map fun p => (p.1, g p.1 p.2)).filter fun q => pred q.2).length =
      (l.filter fun q => pred q.2).length := by
  induction l with
  | nil => rfl
  | cons kv rest ih =>
      by_cases hp : pred kv.2
      · simp [List.filter_cons, hg, hp, ih]
      · simp [List.filter_cons, hg, hp, ih]

/-! ### Chunk-arithmetic lemmas -/

theorem chunkCoord_eq_of_bounds {x : ℚ} {cx : ℤ}
    (h1 : (cx : ℚ) * 16 ≤ x) (h2 : x < ((cx : ℚ) + 1) * 16) :
    chunkCoord x = cx := by
  unfold chunkCoord CHUNK_SIZE
  rw [Int.floor_eq_iff]
  constructor
  · rw [le_div_iff (by norm_num : (0 : ℚ) < 16)]
    linarith
  · rw [div_lt_iff (by norm_num : (0 : ℚ) < 16)]
    push_cast
    linarith

/-- After one AI step, the x coordinate lies inside the home chunk's inner
band `[16·cx + 2, 16·cx + 14]` — the clamp guarantees this whatever the
incoming position and velocity were. -/
theorem updateFishEntity_x_bounds (now : ℤ) (rand : ℚ) (nv : Vec3) (f : Fish) :
    (f.chunkX : ℚ) * 16 + 2 ≤ (updateFishEntity now rand nv f).position.x ∧
      (updateFishEntity now rand nv f).position.x ≤ ((f.chunkX : ℚ) + 1) * 16 - 2 := by
  unfold updateFishEntity CHUNK_SIZE
  set f1 := if now - f.lastDirectionChange > 3000 ∨ rand < 1 / 100 then
      { f with velocity := nv, lastDirectionChange := now }
    else f with hf1
  have hchunk : f1.chunkX = f.chunkX := by
    rw [hf1]
    split <;> rfl
  set px := f1.position.x + f1.velocity.x * (1 / 50) with hpx
  simp only [hchunk]
  by_cases hout : px < (f.chunkX : ℚ) * 16 + 2 ∨ ((f.chunkX : ℚ) + 1) * 16 - 2 < px
  · rw [if_pos hout]
    constructor
    · exact le_max_left _ _
    · exact max_le (by push_cast; linarith) (min_le_left _ _)
  · rw [if_neg hout]
    push_neg at hout
    exact ⟨hout.1, hout.2⟩

/-- Same bound for the z coordinate. -/
theorem updateFishEntity_z_bounds (now : ℤ) (rand : ℚ) (nv : Vec3) (f : Fish) :
    (f.chunkZ : ℚ) * 16 + 2 ≤ (updateFishEntity now rand nv f).position.z ∧
      (updateFishEntity now rand nv f).position.z ≤ ((f.chunkZ : ℚ) + 1) * 16 - 2 := by
  unfold updateFishEntity CHUNK_SIZE
  set f1 := if now - f.lastDirectionChange > 3000 ∨ rand < 1 / 100 then
      { f with velocity := nv, lastDirectionChange := now }
    else f with hf1
  have hchunk : f1.chunkZ = f.chunkZ := by
    rw [hf1]
    split <;> rfl
  set pz := f1.position.z + f1.velocity.z * (1 / 50) with hpz
  simp only [hchunk]
  by_cases hout : pz < (f.chunkZ : ℚ) * 16 + 2 ∨ ((f.chunkZ : ℚ) + 1) * 16 - 2 < pz
  · rw [if_pos hout]
    constructor
    · exact le_max_left _ _
    · exact max_le (by push_cast; linarith) (min_le_left _ _)
  · rw [if_neg hout]
    push_neg at hout
    exact ⟨hout.1, hout.2⟩

/-- The AI step never changes a fish's home chunk or id. -/
theorem updateFishEntity_home (now : ℤ) (rand : ℚ) (nv : Vec3) (f : Fish) :
    (updateFishEntity now rand nv f).chunkX = f.chunkX ∧
      (updateFishEntity now rand nv f).chunkZ = f.chunkZ ∧
      (updateFishEntity now rand nv f).id = f.id := by
  unfold updateFishEntity
  split <;> exact ⟨rfl, rfl, rfl⟩

/-! ### Chunk-load loop lemmas -/

theorem loadStep_player_fields (now : ℤ) (r : ℕ → ℚ)
    (acc : ServerState × List OutMsg) (c : ℤ × ℤ) :
    (loadStep now r acc c).1.playerPositions = acc.1.playerPositions ∧
      (loadStep now r acc c).1.playerVelocities = acc.1.playerVelocities ∧
      (loadStep now r acc c).1.playerChunks = acc.1.playerChunks ∧
      (loadStep now r acc c).1.playerKeys = acc.1.playerKeys ∧
      (loadStep now r acc c).1.nextClientId = acc.1.nextClientId := by
  unfold loadStep spawnFishForChunk
  split <;> exact ⟨rfl, rfl, rfl, rfl, rfl⟩

theorem loadStep_mem_loaded (now : ℤ) (r : ℕ → ℚ)
    (acc : ServerState × List OutMsg) (c d : ℤ × ℤ)
    (h : c ∈ acc.1.loadedChunks) : c ∈ (loadStep now r acc d).1.loadedChunks := by
  unfold loadStep spawnFishForChunk
  split
  · exact h
  · exact List.mem_append_left _ h

theorem loadStep_fish_isSome (now : ℤ) (r : ℕ → ℚ)
    (acc : ServerState × List OutMsg) (d : ℤ × ℤ) (fid : ℕ)
    (h : (mget fid acc.1.fishEntities).isSome) :
    (mget fid (loadStep now r acc d).1.fishEntities).isSome := by
  unfold loadStep spawnFishForChunk
  split
  · exact h
  · exact mget_mset_isSome _ h

theorem mget_nextFishId_eq_none {s : ServerState} (h : fishIdsBounded s) :
    mget s.nextFishId s.fishEntities = none := by
  cases hm : mget s.nextFishId s.fishEntities with
  | none => rfl
  | some v => exact absurd (h _ (mget_mem hm)) (lt_irrefl _)

theorem spawnOneFish_id (fid : ℕ) (cx cz : ℤ) (now : ℤ) (r : ℕ → ℚ) (base : ℕ) :
    (spawnOneFish fid cx cz now r base).id = fid := rfl

theorem loadStep_bounded_fish (now : ℤ) (r : ℕ → ℚ)
    (acc : ServerState × List OutMsg) (d : ℤ × ℤ)
    (hb : fishIdsBounded acc.1) :
    fishIdsBounded (loadStep now r acc d).1 ∧
      (∀ fid f, mget fid acc.1.fishEntities = some f →
        mget fid (loadStep now r acc d).1.fishEntities = some f) ∧
      (∀ c ∈ acc.1.loadedChunks, fishCount c (loadStep now r acc d).1 = fishCount c acc.1) := by
  unfold loadStep
  split
  · exact ⟨hb, fun _ _ h => h, fun _ _ => rfl⟩
  · rename_i hnotmem
    have hnone : mget acc.1.nextFishId acc.1.fishEntities = none := mget_nextFishId_eq_none hb
    refine ⟨?_, ?_, ?_⟩
    · intro p hp
      simp only [spawnFishForChunk] at hp ⊢
      rw [spawnOneFish_id, mset_eq_append _ hnone] at hp
      rcases List.mem_append.mp hp with h1 | h2
      · exact Nat.lt_succ_of_lt (hb _ h1)
      · simp only [List.mem_singleton] at h2
        rw [h2]
        exact Nat.lt_succ_self _
    · intro fid f hf
      simp only [spawnFishForChunk]
      rw [spawnOneFish_id, mset_eq_append _ hnone]
      exact mget_append_some hf
    · intro c hc
      have hne : (d.1, d.2) ≠ c := by
        intro he
        exact hnotmem (by rw [← he] at hc; simpa using hc)
      simp only [spawnFishForChunk, fishCount]
      rw [spawnOneFish_id, mset_eq_append _ hnone, List.filter_append]
      have hhome : fishHomeHere c
          (spawnOneFish acc.1.nextFishId d.1 d.2 now r (6 * acc.1.nextFishId)) = false := by
        simp only [fishHomeHere, spawnOneFish, decide_eq_false_iff_not]
        intro hcc
        exact hne (Prod.ext hcc.1 hcc.2)
      simp [hhome]

theorem foldl_loadStep_player_fields (now : ℤ) (r : ℕ → ℚ) (l : List (ℤ × ℤ))
    (acc : ServerState × List OutMsg) :
    ((l.foldl (loadStep now r) acc).1.playerPositions = acc.1.playerPositions ∧
      (l.foldl (loadStep now r) acc).1.playerVelocities = acc.1.playerVelocities ∧
      (l.foldl (loadStep now r) acc).1.playerChunks = acc.1.playerChunks ∧
      (l.foldl (loadStep now r) acc).1.playerKeys = acc.1.playerKeys ∧
      (l.foldl (loadStep now r) acc).1.nextClientId = acc.1.nextClientId) := by
  induction l generalizing acc with
  | nil => exact ⟨rfl, rfl, rfl, rfl, rfl⟩
  | cons d rest ih =>
      rw [List.foldl_cons]
      have h1 := loadStep_player_fields now r acc d
      have h2 := ih (loadStep now r acc d)
      exact ⟨h2.1.trans h1.1, h2.2.1.trans h1.2.1, h2.2.2.1.trans h1.2.2.1,
        h2.2.2.2.1.trans h1.2.2.2.1, h2.2.2.2.2.trans h1.2.2.2.2⟩

theorem foldl_loadStep_mem (now : ℤ) (r : ℕ → ℚ) (l : List (ℤ × ℤ))
    (acc : ServerState × List OutMsg) (c : ℤ × ℤ)
    (h : c ∈ acc.1.loadedChunks) : c ∈ (l.foldl (loadStep now r) acc).1.loadedChunks := by
  induction l generalizing acc with
  | nil => exact h
  | cons d rest ih =>
      rw [List.foldl_cons]
      exact ih _ (loadStep_mem_loaded now r acc c d h)

theorem foldl_loadStep_fish_isSome (now : ℤ) (r : ℕ → ℚ) (l : List (ℤ × ℤ))
    (acc : ServerState × List OutMsg) (fid : ℕ)
    (h : (mget fid acc.1.fishEntities).isSome) :
    (mget fid (l.foldl (loadStep now r) acc).1.fishEntities).isSome := by
  induction l generalizing acc with
  | nil => exact h
  | cons d rest ih =>
      rw [List.foldl_cons]
      exact ih _ (loadStep_fish_isSome now r acc d fid h)

theorem foldl_loadStep_bounded_fish (now : ℤ) (r : ℕ → ℚ) (l : List (ℤ × ℤ))
    (acc : ServerState × List OutMsg) (hb : fishIdsBounded acc.1) :
    fishIdsBounded (l.foldl (loadStep now r) acc).1 ∧
      (∀ fid f, mget fid acc.1.fishEntities = some f →
        mget fid (l.foldl (loadStep now r) acc).1.fishEntities = some f) ∧
      (∀ c ∈ acc.1.loadedChunks,
        fishCount c (l.foldl (loadStep now r) acc).1 = fishCount c acc.1) := by
  induction l generalizing acc with
  | nil => exact ⟨hb, fun _ _ h => h, fun _ _ => rfl⟩
  | cons d rest ih =>
      rw [List.foldl_cons]
      have hstep := loadStep_bounded_fish now r acc d hb
      have hrest := ih (loadStep now r acc d) hstep.1
      refine ⟨hrest.1, ?_, ?_⟩
      · intro fid f hf
        exact hrest.2.1 fid f (hstep.2.1 fid f hf)
      · intro c hc
        have hc' : c ∈ (loadStep now r acc d).1.loadedChunks :=
          loadStep_mem_loaded now r acc c d hc
        exact (hrest.2.2 c hc').trans (hstep.2.2 c hc)

theorem loadChunksAround_eq (s : ServerState) (ccx ccz : ℤ) (now : ℤ) (r : ℕ → ℚ) :
    loadChunksAround s ccx ccz now r =
      (chunkDeltas.map fun d => (ccx + d.1, ccz + d.2)).foldl
        (loadStep now r) (s, []) := rfl

theorem loadChunksAround_player_fields (s : ServerState) (ccx ccz : ℤ) (now : ℤ)
    (r : ℕ → ℚ) :
    (loadChunksAround s ccx ccz now r).1.playerPositions = s.playerPositions ∧
      (loadChunksAround s ccx ccz now r).1.playerVelocities = s.playerVelocities ∧
      (loadChunksAround s ccx ccz now r).1.playerChunks = s.playerChunks ∧
      (loadChunksAround s ccx ccz now r).1.playerKeys = s.playerKeys ∧
      (loadChunksAround s ccx ccz now r).1.nextClientId = s.nextClientId := by
  have h := foldl_loadStep_player_fields now r
    (chunkDeltas.map fun d => (ccx + d.1, ccz + d.2)) (s, [])
  rw [← loadChunksAround_eq] at h
  exact h

theorem loadChunksAround_mem (s : ServerState) (ccx ccz : ℤ) (now : ℤ)
    (r : ℕ → ℚ) (c : ℤ × ℤ) (h : c ∈ s.loadedChunks) :
    c ∈ (loadChunksAround s ccx ccz now r).1.loadedChunks := by
  have h2 := foldl_loadStep_mem now r
    (chunkDeltas.map fun d => (ccx + d.1, ccz + d.2)) (s, []) c h
  rw [← loadChunksAround_eq] at h2
  exact h2

theorem loadChunksAround_fish_isSome (s : ServerState) (ccx ccz : ℤ) (now : ℤ)
    (r : ℕ → ℚ) (fid : ℕ) (h : (mget fid s.fishEntities).isSome) :
    (mget fid (loadChunksAround s ccx ccz now r).1.fishEntities).isSome := by
  have h2 := foldl_loadStep_fish_isSome now r
    (chunkDeltas.map fun d => (ccx + d.1, ccz + d.2)) (s, []) fid h
  rw [← loadChunksAround_eq] at h2
  exact h2

theorem loadChunksAround_bounded_fish (s : ServerState) (ccx ccz : ℤ) (now : ℤ)
    (r : ℕ → ℚ) (hb : fishIdsBounded s) :
    fishIdsBounded (loadChunksAround s ccx ccz now r).1 ∧
      (∀ fid f, mget fid s.fishEntities = some f →
        mget fid (loadChunksAround s ccx ccz now r).1.fishEntities = some f) ∧
      (∀ c ∈ s.loadedChunks,
        fishCount c (loadChunksAround s ccx ccz now r).1 = fishCount c s) := by
  have h := foldl_loadStep_bounded_fish now r
    (chunkDeltas.map fun d => (ccx + d.1, ccz + d.2)) (s, []) hb
  rw [← loadChunksAround_eq] at h
  exact h

/-! ### Player-integration projection lemmas -/

theorem integrateEntry_fields (st : ServerState) (ck : ℕ × KeyState) :
    (integrateEntry st ck).fishEntities = st.fishEntities ∧
      (integrateEntry st ck).loadedChunks = st.loadedChunks ∧
      (integrateEntry st ck).nextFishId = st.nextFishId ∧
      (integrateEntry st ck).playerKeys = st.playerKeys ∧
      (integrateEntry st ck).playerChunks = st.playerChunks := by
  unfold integrateEntry
  split <;> exact ⟨rfl, rfl, rfl, rfl, rfl⟩

theorem updatePlayerPositions_foldl_fields (l : List (ℕ × KeyState)) (st : ServerState) :
    (l.foldl integrateEntry st).fishEntities = st.fishEntities ∧
      (l.foldl integrateEntry st).loadedChunks = st.loadedChunks ∧
      (l.foldl integrateEntry st).nextFishId = st.nextFishId ∧
      (l.foldl integrateEntry st).playerKeys = st.playerKeys ∧
      (l.foldl integrateEntry st).playerChunks = st.playerChunks := by
  induction l generalizing st with
  | nil => exact ⟨rfl, rfl, rfl, rfl, rfl⟩
  | cons ck rest ih =>
      rw [List.foldl_cons]
      have h1 := integrateEntry_fields st ck
      have h2 := ih (integrateEntry st ck)
      exact ⟨h2.1.trans h1.1, h2.2.1.trans h1.2.1, h2.2.2.1.trans h1.2.2.1,
        h2.2.2.2.1.trans h1.2.2.2.1, h2.2.2.2.2.trans h1.2.2.2.2⟩

theorem updatePlayerPositions_fields (s : ServerState) :
    (updatePlayerPositions s).fishEntities = s.fishEntities ∧
      (updatePlayerPositions s).loadedChunks = s.loadedChunks ∧
      (updatePlayerPositions s).nextFishId = s.nextFishId ∧
      (updatePlayerPositions s).playerKeys = s.playerKeys ∧
      (updatePlayerPositions s).playerChunks = s.playerChunks :=
  updatePlayerPositions_foldl_fields s.playerKeys s

/-! ### Fish-update-pass lemmas -/

theorem updateFishPositions_mget (s : ServerState) (now : ℤ) (rand : ℕ → ℚ)
    (nv : ℕ → Vec3) (fid : ℕ) :
    mget fid (updateFishPositions s now rand nv).fishEntities =
      (mget fid s.fishEntities).map (updateFishEntity now (rand fid) (nv fid)) :=
  mget_map_keyed s.fishEntities (fun k f => updateFishEntity now (rand k) (nv k) f) fid

theorem updateFishPositions_bounded (s : ServerState) (now : ℤ) (rand : ℕ → ℚ)
    (nv : ℕ → Vec3) (hb : fishIdsBounded s) :
    fishIdsBounded (updateFishPositions s now rand nv) := by
  intro p hp
  simp only [updateFishPositions, List.mem_map] at hp
  obtain ⟨q, hq, hpq⟩ := hp
  have := hb q hq
  rw [← hpq]
  exact this

theorem updateFishPositions_count (s : ServerState) (now : ℤ) (rand : ℕ → ℚ)
    (nv : ℕ → Vec3) (c : ℤ × ℤ) :
    fishCount c (updateFishPositions s now rand nv) = fishCount c s := by
  unfold fishCount updateFishPositions
  exact filter_length_map_keyed s.fishEntities
    (fun k f => updateFishEntity now (rand k) (nv k) f) (fishHomeHere c)
    (fun k a => by
      have h := updateFishEntity_home now (rand k) (nv k) a
      simp [fishHomeHere, h.1, h.2.1])

/-! ### Event-level preservation lemmas -/

theorem handleConnection_fst (s : ServerState) (now : ℤ) (r : ℕ → ℚ) :
    (handleConnection s now r).1 =
      (loadChunksAround (connectRegister s) 0 0 now r).1 := by
  simp only [handleConnection]

/-- All fish- and chunk-related preservation facts for one message frame:
message handling never removes a loaded chunk or a fish, and — under the
fish-id counter invariant — preserves the invariant, every stored fish
entry verbatim, and the fish population of already-loaded chunks. -/
theorem handleMessage_master (s : ServerState) (cid : ℕ) (msg : Option ClientMsg)
    (now : ℤ) (r : ℕ → ℚ) :
    (∀ c ∈ s.loadedChunks, c ∈ (handleMessage s cid msg now r).1.loadedChunks) ∧
      (∀ fid, (mget fid s.fishEntities).isSome →
        (mget fid (handleMessage s cid msg now r).1.fishEntities).isSome) ∧
      (fishIdsBounded s →
        fishIdsBounded (handleMessage s cid msg now r).1 ∧
          (∀ fid f, mget fid s.fishEntities = some f →
            mget fid (handleMessage s cid msg now r).1.fishEntities = some f) ∧
          (∀ c ∈ s.loadedChunks,
            fishCount c (handleMessage s cid msg now r).1 = fishCount c s)) := by
  cases msg with
  | none =>
      exact ⟨fun c hc => hc, fun fid hf => hf,
        fun hb => ⟨hb, fun fid f hf => hf, fun c hc => rfl⟩⟩
  | some m =>
      cases m with
      | other =>
          exact ⟨fun c hc => hc, fun fid hf => hf,
            fun hb => ⟨hb, fun fid f hf => hf, fun c hc => rfl⟩⟩
      | keyPress key pressed =>
          simp only [handleMessage]
          cases hks : mget cid s.playerKeys with
          | none =>
              exact ⟨fun c hc => hc, fun fid hf => hf,
                fun hb => ⟨hb, fun fid f hf => hf, fun c hc => rfl⟩⟩
          | some ks =>
              exact ⟨fun c hc => hc, fun fid hf => hf,
                fun hb => ⟨hb, fun fid f hf => hf, fun c hc => rfl⟩⟩
      | movement pos vel =>
          simp only [handleMessage]
          cases vel with
          | none =>
              cases hcur : mget cid s.playerChunks with
              | none =>
                  simp only [hcur]
                  exact ⟨fun c hc => hc, fun fid hf => hf,
                    fun hb => ⟨hb, fun fid f hf => hf, fun c hc => rfl⟩⟩
              | some cur =>
                  simp only [hcur]
                  by_cases hch : chunkCoord pos.x ≠ cur.1 ∨ chunkCoord pos.z ≠ cur.2
                  · rw [if_pos hch]
                    dsimp only
                    refine ⟨?_, ?_, ?_⟩
                    · intro c hc
                      exact loadChunksAround_mem _ _ _ now r c hc
                    · intro fid hf
                      exact loadChunksAround_fish_isSome _ _ _ now r fid hf
                    · intro hb
                      have h := loadChunksAround_bounded_fish
                        { s with
                          playerPositions := mset cid pos s.playerPositions
                          playerChunks := mset cid (chunkCoord pos.x, chunkCoord pos.z)
                            s.playerChunks }
                        (chunkCoord pos.x) (chunkCoord pos.z) now r hb
                      exact ⟨h.1, h.2.1, h.2.2⟩
                  · rw [if_neg hch]
                    exact ⟨fun c hc => hc, fun fid hf => hf,
                      fun hb => ⟨hb, fun fid f hf => hf, fun c hc => rfl⟩⟩
          | some v =>
              cases hcur : mget cid s.playerChunks with
              | none =>
                  simp only [hcur]
                  exact ⟨fun c hc => hc, fun fid hf => hf,
                    fun hb => ⟨hb, fun fid f hf => hf, fun c hc => rfl⟩⟩
              | some cur =>
                  simp only [hcur]
                  by_cases hch : chunkCoord pos.x ≠ cur.1 ∨ chunkCoord pos.z ≠ cur.2
                  · rw [if_pos hch]
                    dsimp only
                    refine ⟨?_, ?_, ?_⟩
                    · intro c hc
                      exact loadChunksAround_mem _ _ _ now r c hc
                    · intro fid hf
                      exact loadChunksAround_fish_isSome _ _ _ now r fid hf
                    · intro hb
                      have h := loadChunksAround_bounded_fish
                        { s with
                          playerPositions := mset cid pos s.playerPositions
                          playerVelocities := mset cid v s.playerVelocities
                          playerChunks := mset cid (chunkCoord pos.x, chunkCoord pos.z)
                            s.playerChunks }
                        (chunkCoord pos.x) (chunkCoord pos.z) now r hb
                      exact ⟨h.1, h.2.1, h.2.2⟩
                  · rw [if_neg hch]
                    exact ⟨fun c hc => hc, fun fid hf => hf,
                      fun hb => ⟨hb, fun fid f hf => hf, fun c hc => rfl⟩⟩

/-- All fish- and chunk-related preservation facts for a single server event:
loaded chunks only grow; fish-map keys are never removed; and — assuming
the fish-id counter invariant — the invariant is preserved, each stored
fish keeps its id and home chunk, and the fish population of an
already-loaded chunk is unchanged. -/
theorem applyEvent_master (s : ServerState) (e : Event) :
    (∀ c ∈ s.loadedChunks, c ∈ (applyEvent s e).loadedChunks) ∧
      (∀ fid, (mget fid s.fishEntities).isSome →
        (mget fid (applyEvent s e).fishEntities).isSome) ∧
      (fishIdsBounded s →
        fishIdsBounded (applyEvent s e) ∧
          (∀ fid f, mget fid s.fishEntities = some f →
            ∃ f', mget fid (applyEvent s e).fishEntities = some f' ∧
              f'.id = f.id ∧ f'.chunkX = f.chunkX ∧ f'.chunkZ = f.chunkZ) ∧
          (∀ c ∈ s.loadedChunks, fishCount c (applyEvent s e) = fishCount c s)) := by
  cases e with
  | connect now r =>
      have heq : applyEvent s (Event.connect now r) =
          (loadChunksAround (connectRegister s) 0 0 now r).1 := handleConnection_fst s now r
      rw [heq]
      refine ⟨?_, ?_, ?_⟩
      · intro c hc
        exact loadChunksAround_mem (connectRegister s) 0 0 now r c hc
      · intro fid hf
        exact loadChunksAround_fish_isSome (connectRegister s) 0 0 now r fid hf
      · intro hb
        have h := loadChunksAround_bounded_fish (connectRegister s) 0 0 now r hb
        exact ⟨h.1, fun fid f hf => ⟨f, h.2.1 fid f hf, rfl, rfl, rfl⟩, h.2.2⟩
  | close cid =>
      exact ⟨fun c hc => hc, fun fid hf => hf,
        fun hb => ⟨hb, fun fid f hf => ⟨f, hf, rfl, rfl, rfl⟩, fun c hc => rfl⟩⟩
  | message cid msg now r =>
      have heq : applyEvent s (Event.message cid msg now r) =
          (handleMessage s cid msg now r).1 := rfl
      rw [heq]
      have h := handleMessage_master s cid msg now r
      exact ⟨h.1, h.2.1, fun hb =>
        ⟨(h.2.2 hb).1, fun fid f hf => ⟨f, (h.2.2 hb).2.1 fid f hf, rfl, rfl, rfl⟩,
          (h.2.2 hb).2.2⟩⟩
  | tick now rand nv =>
      have heq : applyEvent s (Event.tick now rand nv) =
          updateFishPositions (updatePlayerPositions s) now rand nv := rfl
      rw [heq]
      have hf1 := (updatePlayerPositions_fields s).1
      have hl1 := (updatePlayerPositions_fields s).2.1
      have hn1 := (updatePlayerPositions_fields s).2.2.1
      refine ⟨?_, ?_, ?_⟩
      · intro c hc
        show c ∈ (updatePlayerPositions s).loadedChunks
        rw [hl1]
        exact hc
      · intro fid hf
        rw [updateFishPositions_mget, hf1]
        cases hm : mget fid s.fishEntities with
        | none => rw [hm] at hf; exact absurd hf (by simp)
        | some f => simp
      · intro hb
        have hb1 : fishIdsBounded (updatePlayerPositions s) := by
          intro p hp
          rw [hf1] at hp
          rw [hn1]
          exact hb p hp
        refine ⟨updateFishPositions_bounded _ now rand nv hb1, ?_, ?_⟩
        · intro fid f hf
          refine ⟨updateFishEntity now (rand fid) (nv fid) f, ?_, ?_, ?_, ?_⟩
          · rw [updateFishPositions_mget, hf1, hf]
            rfl
          · exact (updateFishEntity_home now (rand fid) (nv fid) f).2.2
          · exact (updateFishEntity_home now (rand fid) (nv fid) f).1
          · exact (updateFishEntity_home now (rand fid) (nv fid) f).2.1
        · intro c hc
          rw [updateFishPositions_count]
          show fishCount c (updatePlayerPositions s) = fishCount c s
          unfold fishCount
          rw [hf1]

/-- Trace-level version of the preservation facts: over any event sequence,
loaded chunks persist, fish keys persist, and — under the id invariant —
each fish keeps its id and home chunk and loaded chunks keep their fish
population. -/
theorem applyEvents_master (es : List Event) (s : ServerState) :
    (∀ c ∈ s.loadedChunks, c ∈ (applyEvents s es).loadedChunks) ∧
      (∀ fid, (mget fid s.fishEntities).isSome →
        (mget fid (applyEvents s es).fishEntities).isSome) ∧
      (fishIdsBounded s →
        fishIdsBounded (applyEvents s es) ∧
          (∀ fid f, mget fid s.fishEntities = some f →
            ∃ f', mget fid (applyEvents s es).fishEntities = some f' ∧
              f'.id = f.id ∧ f'.chunkX = f.chunkX ∧ f'.chunkZ = f.chunkZ) ∧
          (∀ c ∈ s.loadedChunks, fishCount c (applyEvents s es) = fishCount c s)) := by
  induction es generalizing s with
  | nil =>
      exact ⟨fun c hc => hc, fun fid hf => hf,
        fun hb => ⟨hb, fun fid f hf => ⟨f, hf, rfl, rfl, rfl⟩, fun c hc => rfl⟩⟩
  | cons e rest ih =>
      have hstep := applyEvent_master s e
      have hrest := ih (applyEvent s e)
      have hfold : applyEvents s (e :: rest) = applyEvents (applyEvent s e) rest := rfl
      rw [hfold]
      refine ⟨?_, ?_, ?_⟩
      · intro c hc
        exact hrest.1 c (hstep.1 c hc)
      · intro fid hf
        exact hrest.2.1 fid (hstep.2.1 fid hf)
      · intro hb
        have hb1 := (hstep.2.2 hb).1
        refine ⟨(hrest.2.2 hb1).1, ?_, ?_⟩
        · intro fid f hf
          obtain ⟨f1, hf1, hid1, hx1, hz1⟩ := (hstep.2.2 hb).2.1 fid f hf
          obtain ⟨f2, hf2, hid2, hx2, hz2⟩ := (hrest.2.2 hb1).2.1 fid f1 hf1
          exact ⟨f2, hf2, hid2.trans hid1, hx2.trans hx1, hz2.trans hz1⟩
        · intro c hc
          exact ((hrest.2.2 hb1).2.2 c (hstep.1 c hc)).trans ((hstep.2.2 hb).2.2 c hc)

/-- The `gameState.fish` entry a tick broadcasts for `fid` is exactly the
projection of the stored fish after this tick's update. -/
theorem gameTick_snapshot_fish (s : ServerState) (now : ℤ) (rand : ℕ → ℚ)
    (nv : ℕ → Vec3) (fid : ℕ) :
    mget fid (gameTick s now rand nv).2.fish =
      (mget fid (gameTick s now rand nv).1.fishEntities).map fun f =>
        { id := f.id, position := f.position, velocity := f.velocity,
          chunkX := f.chunkX, chunkZ := f.chunkZ } := by
  have heq2 : (gameTick s now rand nv).2.fish =
      (updateFishPositions (updatePlayerPositions s) now rand nv).fishEntities.map
        (fun p => (p.1, FishSnap.mk p.2.id p.2.position p.2.velocity p.2.chunkX p.2.chunkZ)) := rfl
  have heq1 : (gameTick s now rand nv).1 =
      updateFishPositions (updatePlayerPositions s) now rand nv := rfl
  rw [heq2, heq1]
  exact mget_map_keyed _
    (fun (k : ℕ) (f : Fish) => FishSnap.mk f.id f.position f.velocity f.chunkX f.chunkZ) fid

/-! ### Movement-handler lemmas for idempotence -/

theorem handleMessage_movement_chunk (s : ServerState) (cid : ℕ) (p : Vec3)
    (v : Option Vec3) (now : ℤ) (r : ℕ → ℚ) (cur : ℤ × ℤ)
    (h : mget cid s.playerChunks = some cur) :
    mget cid (handleMessage s cid (some (ClientMsg.movement p v)) now r).1.playerChunks =
      some (chunkCoord p.x, chunkCoord p.z) := by
  cases v with
  | none =>
      simp only [handleMessage, h]
      by_cases hch : chunkCoord p.x ≠ cur.1 ∨ chunkCoord p.z ≠ cur.2
      · rw [if_pos hch]
        dsimp only
        rw [(loadChunksAround_player_fields _ _ _ now r).2.2.1]
        exact mget_mset_self _ _ _
      · rw [if_neg hch]
        push_neg at hch
        dsimp only
        rw [h]
        rw [show cur = (chunkCoord p.x, chunkCoord p.z) from
          Prod.ext hch.1.symm hch.2.symm]
  | some vv =>
      simp only [handleMessage, h]
      by_cases hch : chunkCoord p.x ≠ cur.1 ∨ chunkCoord p.z ≠ cur.2
      · rw [if_pos hch]
        dsimp only
        rw [(loadChunksAround_player_fields _ _ _ now r).2.2.1]
        exact mget_mset_self _ _ _
      · rw [if_neg hch]
        push_neg at hch
        dsimp only
        rw [h]
        rw [show cur = (chunkCoord p.x, chunkCoord p.z) from
          Prod.ext hch.1.symm hch.2.symm]

theorem handleMessage_movement_same (s : ServerState) (cid : ℕ) (p : Vec3)
    (v : Option Vec3) (now : ℤ) (r : ℕ → ℚ)
    (h : mget cid s.playerChunks = some (chunkCoord p.x, chunkCoord p.z)) :
    (handleMessage s cid (some (ClientMsg.movement p v)) now r).2 = [] ∧
      (handleMessage s cid (some (ClientMsg.movement p v)) now r).1.playerChunks =
        s.playerChunks := by
  cases v with
  | none =>
      simp only [handleMessage, h]
      rw [if_neg (by simp)]
      exact ⟨rfl, rfl⟩
  | some vv =>
      simp only [handleMessage, h]
      rw [if_neg (by simp)]
      exact ⟨rfl, rfl⟩

/-- C7: delivering the same `movement` message (position `p`) twice in
sequence produces no reply on the second delivery: after the first, the
stored chunk equals `(⌊p.x/16⌋, ⌊p.z/16⌋)`, so the second delivery sends
nothing (in particular no `chunkUpdate`) and leaves the stored chunk map
unchanged. -/
theorem C7_duplicate_movement_idempotent (s : ServerState) (cid : ℕ) (p : Vec3)
    (v : Option Vec3) (now now2 : ℤ) (r r2 : ℕ → ℚ) (cur : ℤ × ℤ)
    (h : mget cid s.playerChunks = some cur) :
    mget cid (handleMessage s cid (some (ClientMsg.movement p v)) now r).1.playerChunks =
        some (chunkCoord p.x, chunkCoord p.z) ∧
      (handleMessage (handleMessage s cid (some (ClientMsg.movement p v)) now r).1 cid
        (some (ClientMsg.movement p v)) now2 r2).2 = [] ∧
      (handleMessage (handleMessage s cid (some (ClientMsg.movement p v)) now r).1 cid
        (some (ClientMsg.movement p v)) now2 r2).1.playerChunks =
        (handleMessage s cid (some (ClientMsg.movement p v)) now r).1.playerChunks := by
  have h1 := handleMessage_movement_chunk s cid p v now r cur h
  have h2 := handleMessage_movement_same
    (handleMessage s cid (some (ClientMsg.movement p v)) now r).1 cid p v now2 r2 h1
  exact ⟨h1, h2.1, h2.2⟩

/-- Witness state for C7: one client, currently in chunk (0,0). -/
def stateW7 : ServerState :=
  { initState with playerPositions := [(0, ⟨0, 0, 0⟩)], playerChunks := [(0, (0, 0))] }

theorem C7_witness :
    mget 0 stateW7.playerChunks = some (0, 0) ∧
      (mget 0 (handleMessage stateW7 0 (some (ClientMsg.movement ⟨20, 0, 0⟩ none)) 0
          (fun _ => 1 / 2)).1.playerChunks =
        some (chunkCoord (20 : ℚ), chunkCoord (0 : ℚ)) ∧
      (handleMessage (handleMessage stateW7 0 (some (ClientMsg.movement ⟨20, 0, 0⟩ none)) 0
          (fun _ => 1 / 2)).1 0 (some (ClientMsg.movement ⟨20, 0, 0⟩ none)) 5
          (fun _ => 1 / 2)).2 = [] ∧
      (handleMessage (handleMessage stateW7 0 (some (ClientMsg.movement ⟨20, 0, 0⟩ none)) 0
          (fun _ => 1 / 2)).1 0 (some (ClientMsg.movement ⟨20, 0, 0⟩ none)) 5
          (fun _ => 1 / 2)).1.playerChunks =
        (handleMessage stateW7 0 (some (ClientMsg.movement ⟨20, 0, 0⟩ none)) 0
          (fun _ => 1 / 2)).1.playerChunks) :=
  ⟨by decide, C7_duplicate_movement_idempotent stateW7 0 ⟨20, 0, 0⟩ none 0 5
    (fun _ => 1 / 2) (fun _ => 1 / 2) (0, 0) (by decide)⟩

/-- C8: a frame that is invalid JSON (`none`, the `JSON.parse` throw caught
by the handler's `try/catch`) or has an unknown `type` discriminator
(`ClientMsg.other`) produces no reply and leaves the whole server state —
players, fish, chunks — unchanged, so the tick loop and other clients are
unaffected. -/
theorem C8_malformed_frames_dropped (s : ServerState) (cid : ℕ) (now : ℤ)
    (r : ℕ → ℚ) :
    handleMessage s cid none now r = (s, []) ∧
      handleMessage s cid (some ClientMsg.other) now r = (s, []) :=
  ⟨rfl, rfl⟩

/-! ### Tick-loop tolerance of a vanished player -/

theorem integrateEntry_skip (st : ServerState) (ck : ℕ × KeyState)
    (h : mget ck.1 st.playerPositions = none) : integrateEntry st ck = st := by
  simp only [integrateEntry, h]

theorem integrateEntry_mget_ne (st : ServerState) (ck : ℕ × KeyState) (a : ℕ)
    (h : ck.1 ≠ a) :
    mget a (integrateEntry st ck).playerPositions = mget a st.playerPositions := by
  simp only [integrateEntry]
  cases hm : mget ck.1 st.playerPositions with
  | none => rfl
  | some pos =>
      dsimp only
      exact mget_mset_ne a ck.1 _ _ h

theorem foldl_integrate_skip (l : List (ℕ × KeyState)) (st : ServerState) (a : ℕ)
    (h : mget a st.playerPositions = none) :
    l.foldl integrateEntry st =
        (l.filter fun ck => ck.1 ≠ a).foldl integrateEntry st ∧
      mget a (l.foldl integrateEntry st).playerPositions = none := by
  induction l generalizing st with
  | nil => exact ⟨rfl, h⟩
  | cons ck rest ih =>
      by_cases hck : ck.1 = a
      · have hskip : integrateEntry st ck = st := integrateEntry_skip st ck (by rw [hck]; exact h)
        rw [List.foldl_cons, hskip, List.filter_cons, if_neg (by simp [hck])]
        exact ih st h
      · have hpres : mget a (integrateEntry st ck).playerPositions = none := by
          rw [integrateEntry_mget_ne st ck a hck]
          exact h
        rw [List.foldl_cons, List.filter_cons, if_pos (by simp [hck]), List.foldl_cons]
        exact ih (integrateEntry st ck) hpres

/-- C9: if a client's position entry has been removed (disconnect) while its
key-state entry is still iterated over, the tick's player-integration pass
is unchanged by dropping that client's key entries — the `continue` skips
it — and it never recreates a position for the missing client; all
remaining clients are processed as usual. -/
theorem C9_tick_skips_missing_player (s : ServerState) (a : ℕ)
    (h : mget a s.playerPositions = none) :
    updatePlayerPositions s =
        (s.playerKeys.filter fun ck => ck.1 ≠ a).foldl integrateEntry s ∧
      mget a (updatePlayerPositions s).playerPositions = none :=
  foldl_integrate_skip s.playerKeys s a h

/-- Witness state for C9: client 0's position entry is gone (closed) while a
stale key entry remains; client 1 is intact. -/
def stateW9 : ServerState :=
  { initState with
    playerPositions := [(1, ⟨3, 0, 4⟩)]
    playerVelocities := [(1, ⟨0, 0, 0⟩)]
    playerKeys := [(0, ⟨false, false, false, false⟩), (1, ⟨false, false, false, true⟩)] }

theorem C9_witness :
    mget 0 stateW9.playerPositions = none ∧
      (updatePlayerPositions stateW9 =
          (stateW9.playerKeys.filter fun ck => ck.1 ≠ 0).foldl integrateEntry stateW9 ∧
        mget 0 (updatePlayerPositions stateW9).playerPositions = none) :=
  ⟨by decide, C9_tick_skips_missing_player stateW9 0 (by decide)⟩

/-! ### Key-state integration characterisation -/

/-- C5 (amended): the per-tick integration derives the desired velocity from
the key state with fixed magnitude `MOVE_SPEED = 10` along the ±x/±z axes
(zero when no key of the axis is held), damps it by 0.9, and advances the
position by velocity × 0.1; but when both opposing keys of an axis are held
the later-assigned key wins (`ArrowDown` over `ArrowUp`, `ArrowRight` over
`ArrowLeft`), giving `MOVE_SPEED × 0.9` on that axis rather than zero. -/
theorem C5_integration_characterised (st : ServerState) (cid : ℕ) (ks : KeyState)
    (pos vel : Vec3)
    (hp : mget cid st.playerPositions = some pos)
    (hv : mget cid st.playerVelocities = some vel) :
    mget cid (integrateEntry st (cid, ks)).playerPositions =
        some ⟨pos.x +
            (if ks.arrowRight then MOVE_SPEED
              else if ks.arrowLeft then -MOVE_SPEED else 0) * (9 / 10) * (1 / 10),
          pos.y,
          pos.z +
            (if ks.arrowDown then MOVE_SPEED
              else if ks.arrowUp then -MOVE_SPEED else 0) * (9 / 10) * (1 / 10)⟩ ∧
      mget cid (integrateEntry st (cid, ks)).playerVelocities =
        some ⟨(if ks.arrowRight then MOVE_SPEED
            else if ks.arrowLeft then -MOVE_SPEED else 0) * (9 / 10),
          vel.y,
          (if ks.arrowDown then MOVE_SPEED
            else if ks.arrowUp then -MOVE_SPEED else 0) * (9 / 10)⟩ := by
  simp only [integrateEntry, hp, hv, Option.getD_some]
  exact ⟨mget_mset_self _ _ _, mget_mset_self _ _ _⟩

/-- Concrete state for C5: one client with position (2,0,5), velocity
(0,1,0). -/
def stateW5 : ServerState :=
  { initState with
    playerPositions := [(0, ⟨2, 0, 5⟩)]
    playerVelocities := [(0, ⟨0, 1, 0⟩)] }

theorem C5_witness :
    mget 0 stateW5.playerPositions = some ⟨2, 0, 5⟩ ∧
      mget 0 stateW5.playerVelocities = some ⟨0, 1, 0⟩ ∧
      (mget 0 (integrateEntry stateW5 (0, ⟨true, true, false, false⟩)).playerPositions =
          some ⟨(⟨2, 0, 5⟩ : Vec3).x +
              (if (⟨true, true, false, false⟩ : KeyState).arrowRight then MOVE_SPEED
                else if (⟨true, true, false, false⟩ : KeyState).arrowLeft then -MOVE_SPEED
                else 0) * (9 / 10) * (1 / 10),
            (⟨2, 0, 5⟩ : Vec3).y,
            (⟨2, 0, 5⟩ : Vec3).z +
              (if (⟨true, true, false, false⟩ : KeyState).arrowDown then MOVE_SPEED
                else if (⟨true, true, false, false⟩ : KeyState).arrowUp then -MOVE_SPEED
                else 0) * (9 / 10) * (1 / 10)⟩ ∧
        mget 0 (integrateEntry stateW5 (0, ⟨true, true, false, false⟩)).playerVelocities =
          some ⟨(if (⟨true, true, false, false⟩ : KeyState).arrowRight then MOVE_SPEED
              else if (⟨true, true, false, false⟩ : KeyState).arrowLeft then -MOVE_SPEED
              else 0) * (9 / 10),
            (⟨0, 1, 0⟩ : Vec3).y,
            (if (⟨true, true, false, false⟩ : KeyState).arrowDown then MOVE_SPEED
              else if (⟨true, true, false, false⟩ : KeyState).arrowUp then -MOVE_SPEED
              else 0) * (9 / 10)⟩) :=
  ⟨by simp [stateW5, initState, mget], by simp [stateW5, initState, mget],
    C5_integration_characterised stateW5 0 ⟨true, true, false, false⟩ ⟨2, 0, 5⟩ ⟨0, 1, 0⟩
      (by simp [stateW5, initState, mget]) (by simp [stateW5, initState, mget])⟩

/-- C5 (counterexample to the claim as stated): holding both `ArrowUp` and
`ArrowDown` does not yield zero velocity on the z axis — the handler
assigns `ArrowDown`'s value last, so the damped z velocity is 9, not 0. -/
theorem C5_counterexample :
    mget 0 (integrateEntry stateW5 (0, ⟨true, true, false, false⟩)).playerVelocities =
        some ⟨0, 1, 9⟩ ∧ (9 : ℚ) ≠ 0 := by
  constructor
  · simp only [integrateEntry, stateW5, initState]
    norm_num [mget, mset, MOVE_SPEED]
  · norm_num

/-! ### Fish home-chunk confinement -/

/-- One tick's AI step for a single fish, with its random inputs bundled:
`(now, direction-change draw, freshly drawn velocity)`. -/
def fishStep (f : Fish) (i : ℤ × ℚ × Vec3) : Fish :=
  updateFishEntity i.1 i.2.1 i.2.2 f

theorem fishStep_confines (f : Fish) (i : ℤ × ℚ × Vec3) :
    (chunkCoord (fishStep f i).position.x = (fishStep f i).chunkX ∧
      chunkCoord (fishStep f i).position.z = (fishStep f i).chunkZ) ∧
      (fishStep f i).chunkX = f.chunkX ∧ (fishStep f i).chunkZ = f.chunkZ := by
  have hx := updateFishEntity_x_bounds i.1 i.2.1 i.2.2 f
  have hz := updateFishEntity_z_bounds i.1 i.2.1 i.2.2 f
  have hh := updateFishEntity_home i.1 i.2.1 i.2.2 f
  simp only [fishStep]
  refine ⟨⟨?_, ?_⟩, hh.1, hh.2.1⟩
  · rw [hh.1]
    exact chunkCoord_eq_of_bounds (by linarith [hx.1]) (by push_cast; linarith [hx.2])
  · rw [hh.2.1]
    exact chunkCoord_eq_of_bounds (by linarith [hz.1]) (by push_cast; linarith [hz.2])

theorem foldl_fishStep_confines (inputs : List (ℤ × ℚ × Vec3)) (f : Fish)
    (hP : chunkCoord f.position.x = f.chunkX ∧ chunkCoord f.position.z = f.chunkZ) :
    (chunkCoord (inputs.foldl fishStep f).position.x = (inputs.foldl fishStep f).chunkX ∧
      chunkCoord (inputs.foldl fishStep f).position.z = (inputs.foldl fishStep f).chunkZ) ∧
      (inputs.foldl fishStep f).chunkX = f.chunkX ∧
      (inputs.foldl fishStep f).chunkZ = f.chunkZ := by
  induction inputs generalizing f with
  | nil => exact ⟨hP, rfl, rfl⟩
  | cons i rest ih =>
      rw [List.foldl_cons]
      have hstep := fishStep_confines f i
      have hrest := ih (fishStep f i) hstep.1
      exact ⟨hrest.1, hrest.2.1.trans hstep.2.1, hrest.2.2.trans hstep.2.2⟩

/-- C2: a fish spawned for chunk `(cx, cz)` (each spawn-position draw in
[0,1)) starts inside that chunk's world-space square, and after any
sequence of per-tick AI steps — whatever the times, direction-change draws
and new velocities — its home chunk is still `(cx, cz)` and
`⌊position.x/CHUNK_SIZE⌋ = cx`, `⌊position.z/CHUNK_SIZE⌋ = cz`: the
clamp-and-bounce step keeps the fish strictly inside its home chunk. -/
theorem C2_fish_never_leaves_home_chunk (cx cz : ℤ) (fishId : ℕ) (now : ℤ)
    (r : ℕ → ℚ) (base : ℕ) (inputs : List (ℤ × ℚ × Vec3))
    (hx0 : 0 ≤ r base) (hx1 : r base < 1)
    (hz0 : 0 ≤ r (base + 2)) (hz1 : r (base + 2) < 1) :
    chunkCoord (inputs.foldl fishStep (spawnOneFish fishId cx cz now r base)).position.x =
        cx ∧
      chunkCoord (inputs.foldl fishStep (spawnOneFish fishId cx cz now r base)).position.z =
        cz ∧
      (inputs.foldl fishStep (spawnOneFish fishId cx cz now r base)).chunkX = cx ∧
      (inputs.foldl fishStep (spawnOneFish fishId cx cz now r base)).chunkZ = cz := by
  have hspawn : chunkCoord (spawnOneFish fishId cx cz now r base).position.x = cx ∧
      chunkCoord (spawnOneFish fishId cx cz now r base).position.z = cz := by
    constructor
    · refine chunkCoord_eq_of_bounds ?_ ?_
      · simp only [spawnOneFish, CHUNK_SIZE]
        nlinarith
      · simp only [spawnOneFish, CHUNK_SIZE]
        nlinarith
    · refine chunkCoord_eq_of_bounds ?_ ?_
      · simp only [spawnOneFish, CHUNK_SIZE]
        nlinarith
      · simp only [spawnOneFish, CHUNK_SIZE]
        nlinarith
  have h := foldl_fishStep_confines inputs (spawnOneFish fishId cx cz now r base)
    (by exact ⟨hspawn.1, hspawn.2⟩)
  refine ⟨?_, ?_, h.2.1, h.2.2⟩
  · rw [h.1.1, h.2.1]
    rfl
  · rw [h.1.2, h.2.2]
    rfl

theorem C2_witness :
    ((0 : ℚ) ≤ (fun _ : ℕ => (1 : ℚ) / 2) 0 ∧ (fun _ : ℕ => (1 : ℚ) / 2) 0 < 1 ∧
      (0 : ℚ) ≤ (fun _ : ℕ => (1 : ℚ) / 2) (0 + 2) ∧ (fun _ : ℕ => (1 : ℚ) / 2) (0 + 2) < 1) ∧
      (chunkCoord ([((4000 : ℤ), (1 : ℚ), (⟨5, 5, 5⟩ : Vec3))].foldl fishStep
            (spawnOneFish 7 3 (-2) 0 (fun _ => 1 / 2) 0)).position.x = 3 ∧
        chunkCoord ([((4000 : ℤ), (1 : ℚ), (⟨5, 5, 5⟩ : Vec3))].foldl fishStep
            (spawnOneFish 7 3 (-2) 0 (fun _ => 1 / 2) 0)).position.z = -2 ∧
        ([((4000 : ℤ), (1 : ℚ), (⟨5, 5, 5⟩ : Vec3))].foldl fishStep
            (spawnOneFish 7 3 (-2) 0 (fun _ => 1 / 2) 0)).chunkX = 3 ∧
        ([((4000 : ℤ), (1 : ℚ), (⟨5, 5, 5⟩ : Vec3))].foldl fishStep
            (spawnOneFish 7 3 (-2) 0 (fun _ => 1 / 2) 0)).chunkZ = -2) :=
  ⟨⟨by norm_num, by norm_num, by norm_num, by norm_num⟩,
    C2_fish_never_leaves_home_chunk 3 (-2) 7 0 (fun _ => 1 / 2) 0
      [((4000 : ℤ), (1 : ℚ), (⟨5, 5, 5⟩ : Vec3))]
      (by norm_num) (by norm_num) (by norm_num) (by norm_num)⟩

/-! ### Spawn idempotence and monotone growth -/

/-- C3: once a chunk is in the loaded set, it stays there, and no later
event — connection, movement (including one that re-enters the chunk), key
press, disconnect or tick — adds any fish homed to it: the loaded-set
membership test guards every `spawnFishForChunk` call, so the spawn runs at
most once per chunk while it is loaded (which, chunks never being removed,
is at most once ever).  Stated for any reachable state (one satisfying the
fish-id counter invariant). -/
theorem C3_spawn_at_most_once (s : ServerState) (c : ℤ × ℤ) (es : List Event)
    (hb : fishIdsBounded s) (hc : c ∈ s.loadedChunks) :
    c ∈ (applyEvents s es).loadedChunks ∧
      fishCount c (applyEvents s es) = fishCount c s := by
  have h := applyEvents_master es s
  exact ⟨h.1 c hc, (h.2.2 hb).2.2 c hc⟩

/-- A fish homed to chunk (0,0). -/
def fish0 : Fish := ⟨0, 0, 0, ⟨8, -2, 8⟩, ⟨0, 0, 0⟩, 0⟩

/-- Concrete server state: one client whose current chunk is (5,5), chunk
(0,0) loaded with one fish homed there. -/
def stateL : ServerState :=
  { nextClientId := 1, nextFishId := 1,
    playerPositions := [(0, ⟨88, 0, 88⟩)], playerVelocities := [(0, ⟨0, 0, 0⟩)],
    playerChunks := [(0, (5, 5))], playerKeys := [(0, ⟨false, false, false, false⟩)],
    fishEntities := [(0, fish0)], loadedChunks := [(0, 0)] }

theorem C3_witness :
    fishIdsBounded stateL ∧ (0, 0) ∈ stateL.loadedChunks ∧
      ((0, 0) ∈ (applyEvents stateL
          [Event.message 0 (some (ClientMsg.movement ⟨1, 0, 1⟩ none)) 0 (fun _ => 1)]).loadedChunks ∧
        fishCount (0, 0) (applyEvents stateL
          [Event.message 0 (some (ClientMsg.movement ⟨1, 0, 1⟩ none)) 0 (fun _ => 1)]) =
          fishCount (0, 0) stateL) :=
  ⟨by intro p hp; simp [stateL, fish0] at hp; simp [hp, stateL], by simp [stateL],
    C3_spawn_at_most_once stateL (0, 0)
      [Event.message 0 (some (ClientMsg.movement ⟨1, 0, 1⟩ none)) 0 (fun _ => 1)]
      (by intro p hp; simp [stateL, fish0] at hp; simp [hp, stateL])
      (by simp [stateL])⟩

/-- C10: the loaded-chunk set and the fish key set only grow: over any event
sequence a loaded chunk stays loaded and a stored fish id stays stored, and
the fish also appears in the `gameState.fish` map built by any subsequent
tick. -/
theorem C10_loaded_and_fish_monotone (s : ServerState) (es : List Event)
    (fid : ℕ) (c : ℤ × ℤ) (hc : c ∈ s.loadedChunks)
    (hf : (mget fid s.fishEntities).isSome) :
    c ∈ (applyEvents s es).loadedChunks ∧
      (mget fid (applyEvents s es).fishEntities).isSome ∧
      ∀ now rand nv,
        (mget fid (gameTick (applyEvents s es) now rand nv).2.fish).isSome := by
  have h := applyEvents_master es s
  refine ⟨h.1 c hc, h.2.1 fid hf, ?_⟩
  intro now rand nv
  rw [gameTick_snapshot_fish]
  have heq : (gameTick (applyEvents s es) now rand nv).1 =
      applyEvent (applyEvents s es) (Event.tick now rand nv) := rfl
  rw [heq]
  have h2 := (applyEvent_master (applyEvents s es) (Event.tick now rand nv)).2.1
    fid (h.2.1 fid hf)
  simpa using h2

theorem C10_witness :
    (0, 0) ∈ stateL.loadedChunks ∧ (mget 0 stateL.fishEntities).isSome ∧
      ((0, 0) ∈ (applyEvents stateL [Event.close 0]).loadedChunks ∧
        (mget 0 (applyEvents stateL [Event.close 0]).fishEntities).isSome ∧
        ∀ now rand nv,
          (mget 0 (gameTick (applyEvents stateL [Event.close 0]) now rand nv).2.fish).isSome) :=
  ⟨by simp [stateL], by simp [stateL, mget],
    C10_loaded_and_fish_monotone stateL [Event.close 0] 0 (0, 0)
      (by simp [stateL]) (by simp [stateL, mget])⟩

/-! ### No despawn path exists -/

/-- C1 (amended): the server has no despawn operation.  Whatever events
occur — both clients moving out of a chunk's interest radius, disconnects
leaving no client covering the chunk, ticks — every stored fish remains in
the World State Store with its home chunk unchanged, and it appears (under
its id, with its home chunk) in the `fish` map of the `gameState` snapshot
built by any subsequent tick. -/
theorem C1_fish_never_removed (s : ServerState) (es : List Event) (fid : ℕ)
    (f : Fish) (now : ℤ) (rand : ℕ → ℚ) (nv : ℕ → Vec3)
    (hb : fishIdsBounded s) (hf : mget fid s.fishEntities = some f) :
    ∃ fsn : FishSnap,
      mget fid (gameTick (applyEvents s es) now rand nv).2.fish = some fsn ∧
        fsn.chunkX = f.chunkX ∧ fsn.chunkZ = f.chunkZ := by
  have h := applyEvents_master es s
  obtain ⟨f1, hf1, _, hx1, hz1⟩ := (h.2.2 hb).2.1 fid f hf
  have hb1 := (h.2.2 hb).1
  obtain ⟨f2, hf2, _, hx2, hz2⟩ :=
    ((applyEvent_master (applyEvents s es) (Event.tick now rand nv)).2.2 hb1).2.1 fid f1 hf1
  have heq : (gameTick (applyEvents s es) now rand nv).1 =
      applyEvent (applyEvents s es) (Event.tick now rand nv) := rfl
  rw [gameTick_snapshot_fish, heq, hf2]
  exact ⟨_, rfl, by simp [hx2, hx1], by simp [hz2, hz1]⟩

theorem C1_witness :
    fishIdsBounded stateL ∧ mget 0 stateL.fishEntities = some fish0 ∧
      ∃ fsn : FishSnap,
        mget 0 (gameTick (applyEvents stateL [Event.close 0]) 100 (fun _ => 1)
            (fun _ => ⟨0, 0, 0⟩)).2.fish = some fsn ∧
          fsn.chunkX = fish0.chunkX ∧ fsn.chunkZ = fish0.chunkZ :=
  ⟨by intro p hp; simp [stateL, fish0] at hp; simp [hp, stateL],
    by simp [stateL, mget],
    C1_fish_never_removed stateL [Event.close 0] 0 fish0 100 (fun _ => 1)
      (fun _ => ⟨0, 0, 0⟩)
      (by intro p hp; simp [stateL, fish0] at hp; simp [hp, stateL])
      (by simp [stateL, mget])⟩

/-- The state after the only client of `stateL` disconnects: no players,
fish and loaded chunks untouched. -/
def stateL2 : ServerState :=
  { nextClientId := 1, nextFishId := 1, playerPositions := [],
    playerVelocities := [], playerChunks := [], playerKeys := [],
    fishEntities := [(0, fish0)], loadedChunks := [(0, 0)] }

/-- C1 (counterexample to the claim as stated): one client is connected,
chunk (0,0) is loaded with a fish homed there; the client disconnects, so
no connected client's interest block covers chunk (0,0) — yet the fish is
not removed: the very next `gameState` snapshot still carries it in its
`fish` map, homed to (0,0).  (There is no `DespawnEntitiesForChunk` in the
server at all.) -/
theorem C1_counterexample :
    (handleClose stateL 0).playerPositions = [] ∧
      mget 0 (gameTick (handleClose stateL 0) 100 (fun _ => 1)
          (fun _ => ⟨0, 0, 0⟩)).2.fish =
        some ⟨0, ⟨8, -2, 8⟩, ⟨0, 0, 0⟩, 0, 0⟩ := by
  have hclose : handleClose stateL 0 = stateL2 := by
    simp [handleClose, stateL, stateL2, mdel]
  constructor
  · rw [hclose]
    rfl
  · rw [gameTick_snapshot_fish]
    have heq : (gameTick (handleClose stateL 0) 100 (fun _ => 1)
        (fun _ => ⟨0, 0, 0⟩)).1 =
        updateFishPositions (updatePlayerPositions (handleClose stateL 0)) 100
          (fun _ => 1) (fun _ => ⟨0, 0, 0⟩) := rfl
    rw [heq, hclose]
    have hupp : updatePlayerPositions stateL2 = stateL2 := rfl
    rw [hupp, updateFishPositions_mget]
    have hm : mget 0 stateL2.fishEntities = some fish0 := by
      simp [stateL2, mget]
    rw [hm]
    have hfish : updateFishEntity 100 1 ⟨0, 0, 0⟩ fish0 = fish0 := by
      have hc1 : ¬ ((100 : ℤ) - fish0.lastDirectionChange > 3000 ∨ (1 : ℚ) < 1 / 100) := by
        simp [fish0]
        norm_num
      simp only [updateFishEntity, hc1, if_false]
      norm_num [fish0, CHUNK_SIZE]
    simp only [Option.map_some', hfish]
    simp [fish0]

/-! ### Both movement-authority variants act on the same state -/

theorem integrateEntry_pos_spec (st : ServerState) (cid : ℕ) (ks : KeyState)
    (pos : Vec3) (hp : mget cid st.playerPositions = some pos) :
    mget cid (integrateEntry st (cid, ks)).playerPositions =
      some ⟨pos.x +
          (if ks.arrowRight then MOVE_SPEED
            else if ks.arrowLeft then -MOVE_SPEED else 0) * (9 / 10) * (1 / 10),
        pos.y,
        pos.z +
          (if ks.arrowDown then MOVE_SPEED
            else if ks.arrowUp then -MOVE_SPEED else 0) * (9 / 10) * (1 / 10)⟩ := by
  simp only [integrateEntry, hp]
  exact mget_mset_self _ _ _

theorem handleMessage_movement_fields (s : ServerState) (cid : ℕ) (p : Vec3)
    (v : Option Vec3) (now : ℤ) (r : ℕ → ℚ) :
    mget cid (handleMessage s cid (some (ClientMsg.movement p v)) now r).1.playerPositions =
        some p ∧
      (handleMessage s cid (some (ClientMsg.movement p v)) now r).1.playerKeys =
        s.playerKeys := by
  cases v with
  | none =>
      simp only [handleMessage]
      cases hcur : mget cid s.playerChunks with
      | none =>
          simp only [hcur]
          exact ⟨mget_mset_self _ _ _, trivial⟩
      | some cur =>
          simp only [hcur]
          by_cases hch : chunkCoord p.x ≠ cur.1 ∨ chunkCoord p.z ≠ cur.2
          · rw [if_pos hch]
            dsimp only
            constructor
            · rw [(loadChunksAround_player_fields _ _ _ now r).1]
              exact mget_mset_self _ _ _
            · rw [(loadChunksAround_player_fields _ _ _ now r).2.2.2.1]
          · rw [if_neg hch]
            exact ⟨mget_mset_self _ _ _, rfl⟩
  | some vv =>
      simp only [handleMessage]
      cases hcur : mget cid s.playerChunks with
      | none =>
          simp only [hcur]
          exact ⟨mget_mset_self _ _ _, trivial⟩
      | some cur =>
          simp only [hcur]
          by_cases hch : chunkCoord p.x ≠ cur.1 ∨ chunkCoord p.z ≠ cur.2
          · rw [if_pos hch]
            dsimp only
            constructor
            · rw [(loadChunksAround_player_fields _ _ _ now r).1]
              exact mget_mset_self _ _ _
            · rw [(loadChunksAround_player_fields _ _ _ now r).2.2.2.1]
          · rw [if_neg hch]
            exact ⟨mget_mset_self _ _ _, rfl⟩

/-- C4 (amended): the two movement-authority variants are simultaneously
active on the same PlayerState in the same server.  A `movement` message
writes the reported position directly into `playerPositions`, and the very
next tick's key-state integration advances that same entry: with only
`ArrowRight` held it becomes `p + (10 × 0.9 × 0.1, 0, 0)` — the position
set by the message is subsequently also moved by key-state integration. -/
theorem C4_both_variants_mutate (s : ServerState) (cid : ℕ) (p : Vec3)
    (now now2 : ℤ) (r rand : ℕ → ℚ) (nv : ℕ → Vec3)
    (hk : s.playerKeys = [(cid, ⟨false, false, false, true⟩)]) :
    mget cid (applyEvent
        (applyEvent s (Event.message cid (some (ClientMsg.movement p none)) now r))
        (Event.tick now2 rand nv)).playerPositions =
      some ⟨p.x + 9 / 10, p.y, p.z⟩ := by
  have hmv := handleMessage_movement_fields s cid p none now r
  have heq : applyEvent s (Event.message cid (some (ClientMsg.movement p none)) now r) =
      (handleMessage s cid (some (ClientMsg.movement p none)) now r).1 := rfl
  rw [heq]
  have heq2 : applyEvent (handleMessage s cid (some (ClientMsg.movement p none)) now r).1
      (Event.tick now2 rand nv) =
      updateFishPositions
        (updatePlayerPositions
          (handleMessage s cid (some (ClientMsg.movement p none)) now r).1)
        now2 rand nv := rfl
  rw [heq2]
  have hproj : (updateFishPositions
      (updatePlayerPositions
        (handleMessage s cid (some (ClientMsg.movement p none)) now r).1)
      now2 rand nv).playerPositions =
      (updatePlayerPositions
        (handleMessage s cid (some (ClientMsg.movement p none)) now r).1).playerPositions := rfl
  rw [hproj]
  have hupp : updatePlayerPositions
      (handleMessage s cid (some (ClientMsg.movement p none)) now r).1 =
      (handleMessage s cid (some (ClientMsg.movement p none)) now r).1.playerKeys.foldl
        integrateEntry
        (handleMessage s cid (some (ClientMsg.movement p none)) now r).1 := rfl
  rw [hupp, hmv.2, hk, List.foldl_cons, List.foldl_nil]
  rw [integrateEntry_pos_spec _ cid ⟨false, false, false, true⟩ p hmv.1]
  norm_num [MOVE_SPEED]

/-- Concrete base state for C4: one freshly connected client at the origin,
holding no keys yet. -/
def stateC4 : ServerState :=
  { nextClientId := 1, nextFishId := 0,
    playerPositions := [(0, ⟨0, 0, 0⟩)], playerVelocities := [(0, ⟨0, 0, 0⟩)],
    playerChunks := [(0, (0, 0))], playerKeys := [(0, ⟨false, false, false, false⟩)],
    fishEntities := [], loadedChunks := [] }

theorem C4_witness :
    (applyEvent stateC4
        (Event.message 0 (some (ClientMsg.keyPress "ArrowRight" true)) 0
          (fun _ => 1))).playerKeys = [(0, ⟨false, false, false, true⟩)] ∧
      mget 0 (applyEvent
          (applyEvent
            (applyEvent stateC4
              (Event.message 0 (some (ClientMsg.keyPress "ArrowRight" true)) 0 (fun _ => 1)))
            (Event.message 0 (some (ClientMsg.movement ⟨3, 0, 0⟩ none)) 0 (fun _ => 1)))
          (Event.tick 0 (fun _ => 1) (fun _ => ⟨0, 0, 0⟩))).playerPositions =
        some ⟨(3 : ℚ) + 9 / 10, 0, 0⟩ :=
  ⟨by simp [applyEvent, handleMessage, stateC4, mget, mset, setKey],
    C4_both_variants_mutate
      (applyEvent stateC4
        (Event.message 0 (some (ClientMsg.keyPress "ArrowRight" true)) 0 (fun _ => 1)))
      0 ⟨3, 0, 0⟩ 0 0 (fun _ => 1) (fun _ => 1) (fun _ => ⟨0, 0, 0⟩)
      (by simp [applyEvent, handleMessage, stateC4, mget, mset, setKey])⟩

/-- C4 (counterexample to the claim as stated): there is an execution mixing
both variants — the client sets `ArrowRight` via `keyPress`, reports
position (3,0,0) via `movement` (stored verbatim), and the next tick's
key-state integration advances that reported position to (3.9, 0, 0): a
position set by a movement message is subsequently advanced by key-state
integration in the same server. -/
theorem C4_counterexample :
    mget 0 (applyEvent
        (applyEvent
          (applyEvent stateC4
            (Event.message 0 (some (ClientMsg.keyPress "ArrowRight" true)) 0 (fun _ => 1)))
          (Event.message 0 (some (ClientMsg.movement ⟨3, 0, 0⟩ none)) 0 (fun _ => 1)))
        (Event.tick 0 (fun _ => 1) (fun _ => ⟨0, 0, 0⟩))).playerPositions =
      some ⟨(3 : ℚ) + 9 / 10, 0, 0⟩ ∧ ((3 : ℚ) + 9 / 10) ≠ 3 := by
  constructor
  · have hkey : applyEvent stateC4
        (Event.message 0 (some (ClientMsg.keyPress "ArrowRight" true)) 0 (fun _ => 1)) =
        { stateC4 with playerKeys := [(0, ⟨false, false, false, true⟩)] } := by
      simp [applyEvent, handleMessage, stateC4, mget, mset, setKey]
    rw [hkey]
    have hmove : applyEvent { stateC4 with playerKeys := [(0, ⟨false, false, false, true⟩)] }
        (Event.message 0 (some (ClientMsg.movement ⟨3, 0, 0⟩ none)) 0 (fun _ => 1)) =
        { stateC4 with playerKeys := [(0, ⟨false, false, false, true⟩)],
                       playerPositions := [(0, ⟨3, 0, 0⟩)] } := by
      have hch : chunkCoord (3 : ℚ) = 0 := by
        unfold chunkCoord CHUNK_SIZE
        norm_num
      have hch0 : chunkCoord (0 : ℚ) = 0 := by
        unfold chunkCoord CHUNK_SIZE
        norm_num
      simp [applyEvent, handleMessage, stateC4, mget, mset, hch, hch0]
    rw [hmove]
    have htick : applyEvent
        { stateC4 with playerKeys := [(0, ⟨false, false, false, true⟩)],
                       playerPositions := [(0, ⟨3, 0, 0⟩)] }
        (Event.tick 0 (fun _ => 1) (fun _ => ⟨0, 0, 0⟩)) =
        updateFishPositions
          (updatePlayerPositions
            { stateC4 with playerKeys := [(0, ⟨false, false, false, true⟩)],
                           playerPositions := [(0, ⟨3, 0, 0⟩)] })
          0 (fun _ => 1) (fun _ => ⟨0, 0, 0⟩) := rfl
    rw [htick]
    norm_num [updateFishPositions, updatePlayerPositions, integrateEntry, stateC4,
      mget, mset, MOVE_SPEED]
  · norm_num

/-! ### Client reconciliation: fish are smoothed, remote players snapped -/

/-- The mesh position computed by `updateLocalFishPositions` for one fish
just before the boundary handling: lerp toward `data.serverPosition` by
`0.05·Δt`, then drift by the smoothed velocity `× Δt × 0.2`. -/
def fishFramePreBound (dt : ℚ) (cf : ClientFish) : Vec3 :=
  let sv := cf.smoothVel.getD cf.dataVel
  let plf := (1 / 20) * dt
  let m1 : Vec3 := match cf.serverPos with
    | some sp => ⟨cf.meshPos.x + (sp.x - cf.meshPos.x) * plf,
                  cf.meshPos.y + (sp.y - cf.meshPos.y) * plf,
                  cf.meshPos.z + (sp.z - cf.meshPos.z) * plf⟩
    | none => cf.meshPos
  let vlf := dt * (3 / 2)
  let sv1 : Vec3 := ⟨sv.x + (cf.dataVel.x - sv.x) * vlf,
                     sv.y + (cf.dataVel.y - sv.y) * vlf,
                     sv.z + (cf.dataVel.z - sv.z) * vlf⟩
  ⟨m1.x + sv1.x * dt * (1 / 5), m1.y + sv1.y * dt * (1 / 5), m1.z + sv1.z * dt * (1 / 5)⟩

theorem clientFishFrame_meshPos_inbounds (dt rand r1 r2 r3 : ℚ) (cf : ClientFish)
    (hx1 : (cf.chunkX : ℚ) * CHUNK_SIZE + 2 ≤ (fishFramePreBound dt cf).x)
    (hx2 : (fishFramePreBound dt cf).x ≤ ((cf.chunkX : ℚ) + 1) * CHUNK_SIZE - 2)
    (hz1 : (cf.chunkZ : ℚ) * CHUNK_SIZE + 2 ≤ (fishFramePreBound dt cf).z)
    (hz2 : (fishFramePreBound dt cf).z ≤ ((cf.chunkZ : ℚ) + 1) * CHUNK_SIZE - 2)
    (hy1 : -9 / 2 ≤ (fishFramePreBound dt cf).y)
    (hy2 : (fishFramePreBound dt cf).y ≤ -1) :
    (clientFishFrame dt rand r1 r2 r3 cf).meshPos = fishFramePreBound dt cf := by
  simp only [fishFramePreBound] at hx1 hx2 hz1 hz2 hy1 hy2
  simp only [clientFishFrame]
  rw [if_neg (not_lt.mpr hx1), if_neg (not_lt.mpr hx2),
    if_neg (not_lt.mpr hz1), if_neg (not_lt.mpr hz2),
    if_neg (not_lt.mpr hy1), if_neg (not_lt.mpr hy2)]
  simp only [fishFramePreBound]

theorem fishFramePreBound_lerp (dt : ℚ) (cf : ClientFish) (sp : Vec3)
    (hsp : cf.serverPos = some sp) (hsv : cf.smoothVel = some ⟨0, 0, 0⟩)
    (hdv : cf.dataVel = ⟨0, 0, 0⟩) :
    fishFramePreBound dt cf =
      ⟨cf.meshPos.x + (sp.x - cf.meshPos.x) * ((1 / 20) * dt),
        cf.meshPos.y + (sp.y - cf.meshPos.y) * ((1 / 20) * dt),
        cf.meshPos.z + (sp.z - cf.meshPos.z) * ((1 / 20) * dt)⟩ := by
  simp only [fishFramePreBound, hsp, hsv, hdv, Option.getD_some]
  simp only [Vec3.mk.injEq]
  refine ⟨by ring, by ring, by ring⟩

/-- C6 (amended): on the client, fish are smoothed while remote players are
snapped.  For a fish whose mesh is within 5 units of the snapshot position
(squared distance ≤ 25), receiving a `gameState` does not move the mesh —
it only records the target; each render frame then moves the mesh exactly
the fraction `0.05·Δt` of the remaining distance toward the target (shown
here per axis for a fish with settled velocities away from the chunk
bounds), which for `0 < Δt < 20` is strictly less than the remaining
distance.  Remote players, by contrast, have their mesh set directly to
the snapshot position on every `gameState` receipt. -/
theorem C6_fish_smoothed_players_snapped (cf : ClientFish) (sp svel : Vec3)
    (dt rand r1 r2 r3 : ℚ)
    (hsp : cf.serverPos = some sp) (hsv : cf.smoothVel = some ⟨0, 0, 0⟩)
    (hdv : cf.dataVel = ⟨0, 0, 0⟩)
    (hd2 : (cf.meshPos.x - sp.x) ^ 2 + (cf.meshPos.y - sp.y) ^ 2 +
        (cf.meshPos.z - sp.z) ^ 2 ≤ 25)
    (hdt0 : 0 < dt) (hdt1 : dt < 20)
    (hx1 : (cf.chunkX : ℚ) * CHUNK_SIZE + 2 ≤ (fishFramePreBound dt cf).x)
    (hx2 : (fishFramePreBound dt cf).x ≤ ((cf.chunkX : ℚ) + 1) * CHUNK_SIZE - 2)
    (hz1 : (cf.chunkZ : ℚ) * CHUNK_SIZE + 2 ≤ (fishFramePreBound dt cf).z)
    (hz2 : (fishFramePreBound dt cf).z ≤ ((cf.chunkZ : ℚ) + 1) * CHUNK_SIZE - 2)
    (hy1 : -9 / 2 ≤ (fishFramePreBound dt cf).y)
    (hy2 : (fishFramePreBound dt cf).y ≤ -1)
    (hne : cf.meshPos.x ≠ sp.x) :
    (clientFishSnapshot cf sp svel).meshPos = cf.meshPos ∧
      (clientFishFrame dt rand r1 r2 r3 cf).meshPos.x =
        cf.meshPos.x + (sp.x - cf.meshPos.x) * ((1 / 20) * dt) ∧
      |(clientFishFrame dt rand r1 r2 r3 cf).meshPos.x - cf.meshPos.x| <
        |sp.x - cf.meshPos.x| ∧
      (∀ m q : Vec3, remotePlayerMeshUpdate m q = q) := by
  have hframe : (clientFishFrame dt rand r1 r2 r3 cf).meshPos = fishFramePreBound dt cf :=
    clientFishFrame_meshPos_inbounds dt rand r1 r2 r3 cf hx1 hx2 hz1 hz2 hy1 hy2
  have hlerp := fishFramePreBound_lerp dt cf sp hsp hsv hdv
  refine ⟨?_, ?_, ?_, ?_⟩
  · simp only [clientFishSnapshot]
    rw [if_neg (not_lt.mpr hd2)]
  · rw [hframe, hlerp]
  · rw [hframe, hlerp]
    have hfac0 : (0 : ℚ) < (1 / 20) * dt := by positivity
    have hfac1 : (1 / 20) * dt < 1 := by linarith
    have habs : 0 < |sp.x - cf.meshPos.x| :=
      abs_pos.mpr (sub_ne_zero.mpr fun hh => hne hh.symm)
    have harr : cf.meshPos.x + (sp.x - cf.meshPos.x) * (1 / 20 * dt) - cf.meshPos.x =
        (sp.x - cf.meshPos.x) * (1 / 20 * dt) := by ring
    rw [harr, abs_mul, abs_of_pos hfac0]
    calc |sp.x - cf.meshPos.x| * (1 / 20 * dt) <
        |sp.x - cf.meshPos.x| * 1 := by
          exact mul_lt_mul_of_pos_left hfac1 habs
      _ = |sp.x - cf.meshPos.x| := mul_one _
  · intro m q
    rfl

/-- Concrete client fish for the C6 witness: in chunk (0,0), mesh 1 unit
away from its server target, velocities settled at zero. -/
def cfW : ClientFish :=
  { meshPos := ⟨8, -2, 8⟩, dataPos := ⟨8, -2, 8⟩, dataVel := ⟨0, 0, 0⟩,
    smoothVel := some ⟨0, 0, 0⟩, serverPos := some ⟨9, -2, 8⟩,
    chunkX := 0, chunkZ := 0 }

theorem C6_witness :
    (cfW.serverPos = some ⟨9, -2, 8⟩ ∧ cfW.smoothVel = some ⟨0, 0, 0⟩ ∧
      cfW.dataVel = ⟨0, 0, 0⟩ ∧
      (cfW.meshPos.x - (9 : ℚ)) ^ 2 + (cfW.meshPos.y - (-2 : ℚ)) ^ 2 +
        (cfW.meshPos.z - (8 : ℚ)) ^ 2 ≤ 25 ∧
      (0 : ℚ) < 1 ∧ (1 : ℚ) < 20 ∧
      (cfW.chunkX : ℚ) * CHUNK_SIZE + 2 ≤ (fishFramePreBound 1 cfW).x ∧
      (fishFramePreBound 1 cfW).x ≤ ((cfW.chunkX : ℚ) + 1) * CHUNK_SIZE - 2 ∧
      (cfW.chunkZ : ℚ) * CHUNK_SIZE + 2 ≤ (fishFramePreBound 1 cfW).z ∧
      (fishFramePreBound 1 cfW).z ≤ ((cfW.chunkZ : ℚ) + 1) * CHUNK_SIZE - 2 ∧
      (-9 / 2 : ℚ) ≤ (fishFramePreBound 1 cfW).y ∧ (fishFramePreBound 1 cfW).y ≤ -1 ∧
      cfW.meshPos.x ≠ (9 : ℚ)) ∧
      ((clientFishSnapshot cfW ⟨9, -2, 8⟩ ⟨1, 0, 0⟩).meshPos = cfW.meshPos ∧
        (clientFishFrame 1 0 0 0 0 cfW).meshPos.x =
          cfW.meshPos.x + ((9 : ℚ) - cfW.meshPos.x) * ((1 / 20) * 1) ∧
        |(clientFishFrame 1 0 0 0 0 cfW).meshPos.x - cfW.meshPos.x| <
          |(9 : ℚ) - cfW.meshPos.x| ∧
        (∀ m q : Vec3, remotePlayerMeshUpdate m q = q)) := by
  have hx : (fishFramePreBound 1 cfW).x = 161 / 20 := by
    simp only [fishFramePreBound, cfW, Option.getD_some]
    norm_num
  have hy : (fishFramePreBound 1 cfW).y = -2 := by
    simp only [fishFramePreBound, cfW, Option.getD_some]
    norm_num
  have hz : (fishFramePreBound 1 cfW).z = 8 := by
    simp only [fishFramePreBound, cfW, Option.getD_some]
    norm_num
  refine ⟨⟨rfl, rfl, rfl, by norm_num [cfW], by norm_num, by norm_num,
    by rw [hx]; norm_num [cfW, CHUNK_SIZE], by rw [hx]; norm_num [cfW, CHUNK_SIZE],
    by rw [hz]; norm_num [cfW, CHUNK_SIZE], by rw [hz]; norm_num [cfW, CHUNK_SIZE],
    by rw [hy]; norm_num, by rw [hy]; norm_num,
    by norm_num [cfW]⟩, ?_⟩
  exact C6_fish_smoothed_players_snapped cfW ⟨9, -2, 8⟩ ⟨1, 0, 0⟩ 1 0 0 0 0
    rfl rfl rfl (by norm_num [cfW]) (by norm_num) (by norm_num)
    (by rw [hx]; norm_num [cfW, CHUNK_SIZE]) (by rw [hx]; norm_num [cfW, CHUNK_SIZE])
    (by rw [hz]; norm_num [cfW, CHUNK_SIZE]) (by rw [hz]; norm_num [cfW, CHUNK_SIZE])
    (by rw [hy]; norm_num) (by rw [hy]; norm_num)
    (by norm_num [cfW])

/-- C6 (counterexample to the claim as stated): for remote players the
client does snap.  With the displayed position at the origin and an
authoritative position 0.01 units away — far below the 5-unit snap
threshold — one `gameState` receipt sets the displayed mesh exactly to the
snapshot position: it moves by the full jump, not strictly less. -/
theorem C6_counterexample :
    remotePlayerMeshUpdate ⟨0, 0, 0⟩ ⟨1 / 100, 0, 0⟩ = ⟨1 / 100, 0, 0⟩ ∧
      ¬ |(remotePlayerMeshUpdate ⟨0, 0, 0⟩ ⟨1 / 100, 0, 0⟩).x - (0 : ℚ)| <
          |(1 / 100 : ℚ) - 0| ∧
      |(1 / 100 : ℚ) - 0| < 5 := by
  refine ⟨rfl, ?_, ?_⟩
  · simp only [remotePlayerMeshUpdate]
    exact lt_irrefl _
  · rw [sub_zero, abs_of_pos (by norm_num : (0 : ℚ) < 1 / 100)]
    norm_num

end UWO
